import Mathlib

/-!
A formal model of the raiot-rs core, shallowly embedded in Lean 4, with proofs
about its circular byte buffer, packet-id allocator, IoT codec, connection
state machine, session socket loop and subscription state machine.

Conventions of the embedding:
* Rust byte strings and topic strings are modelled as `List Char`, one `Char`
  per byte (all inputs of interest are ASCII).
* Machine integers are `Nat` with explicit `% 2^w` where Rust wraps.
* Rust `Result`/fallible code returns `Except`/`Option`; a Rust `panic!`,
  failed `assert!`, out-of-range slice or `.unwrap()` on an error is modelled
  as a distinguished outcome (`Option.none` or an explicit `panicked`
  constructor).
* Rust `HashMap` values built by `collect()` from an iterator of pairs are
  modelled as the association list of those pairs where lookup takes the
  last binding of a key (insertion overwrites) and removal drops the key.
* Opaque Rust callbacks (handlers, wakers) are modelled as tokens; "invoking"
  one is modelled by recording its token.
-/

namespace Raiot

/-! ### Circular byte buffer (`raiot-buffers/src/lib.rs`) -/

/-- A piece of the circular buffer: one consecutive slice or two slices
(wraparound), from `BufferSlice`. -/
inductive BufferSlice where
  | consecutive (bytes : List Nat)
  | splitted (part1 part2 : List Nat)
deriving Repr, DecidableEq

/-- The byte sequence a `BufferSlice` exposes (its sequential `Read` view). -/
def BufferSlice.toList : BufferSlice → List Nat
  | .consecutive bs => bs
  | .splitted b1 b2 => b1 ++ b2

/-- `CircularBuffer { buffer, read, write, full }`. The backing `Box<[u8]>`
of length `size` is modelled as a function from index to byte; indices
`≥ size` are unused. -/
structure CircularBuffer where
  size : Nat
  buffer : Nat → Nat
  read : Nat
  write : Nat
  full : Bool

/-- `CircularBuffer::new(size)` (the `size > 0` assertion is a precondition
of the theorems below). -/
def CircularBuffer.new (size : Nat) : CircularBuffer :=
  { size := size, buffer := fun _ => 0, read := 0, write := 0, full := false }

/-- `is_full`. -/
def CircularBuffer.is_full (b : CircularBuffer) : Bool := b.full

/-- `is_empty`: `read == write && !full`. -/
def CircularBuffer.is_empty (b : CircularBuffer) : Bool :=
  b.read == b.write && !b.full

/-- `valid_length`. -/
def CircularBuffer.valid_length (b : CircularBuffer) : Nat :=
  if b.is_full then b.size
  else if b.is_empty then 0
  else if b.write ≥ b.read then b.write - b.read
  else b.size + b.write - b.read

/-- `available_space` (`size - used` in each branch, as in the source). -/
def CircularBuffer.available_space (b : CircularBuffer) : Nat :=
  if b.is_empty then b.size
  else if b.is_full then 0
  else if b.write ≥ b.read then b.size - (b.write - b.read)
  else b.size - (b.write + b.size - b.read)

/-- `copy_from_slice` into the index range `[start, start + bytes.length)`. -/
def writeRange (buf : Nat → Nat) (start : Nat) (bytes : List Nat) : Nat → Nat :=
  fun i => if start ≤ i ∧ i < start + bytes.length then bytes.getD (i - start) 0 else buf i

/-- `get_buffer_slice(from, length)`: consecutive if `from + length ≤ size`,
otherwise split at the end of the backing storage, the second half of size
`(from + length) % size`. -/
def CircularBuffer.get_buffer_slice (b : CircularBuffer) (start length : Nat) : BufferSlice :=
  let end_pos := start + length
  if end_pos ≤ b.size then
    .consecutive (List.ofFn fun i : Fin length => b.buffer (start + i))
  else
    let second_half_size := end_pos % b.size
    .splitted (List.ofFn fun i : Fin (b.size - start) => b.buffer (start + i))
      (List.ofFn fun i : Fin second_half_size => b.buffer i)

/-- `append_all_bytes`: fails with `WriteZero` (modelled `Except.error ()`)
when `available_space < bytes.len()`; otherwise copies in one or two ranges,
advances `write` modulo `size` and raises the full bit when the buffer
became full. -/
def CircularBuffer.append_all_bytes (b : CircularBuffer) (bytes : List Nat) :
    Except Unit CircularBuffer :=
  if b.available_space < bytes.length then .error ()
  else
    let will_be_full := bytes.length = b.available_space
    let end_pos := b.write + bytes.length
    let buf' :=
      if end_pos ≤ b.size then
        writeRange b.buffer b.write bytes
      else
        let first_half_size := b.size - b.write
        let buf1 := writeRange b.buffer b.write (bytes.take first_half_size)
        writeRange buf1 0 (bytes.drop first_half_size)
    .ok { b with
          buffer := buf'
          write := (b.write + bytes.length) % b.size
          full := if will_be_full then true else b.full }

/-- `read_bytes(length)`: the `assert!(length > 0)` and the
"Not enough valid data" panic are modelled as `none`; otherwise returns the
slice starting at the old read index and the buffer with `read` advanced
and the full bit cleared. -/
def CircularBuffer.read_bytes (b : CircularBuffer) (length : Nat) :
    Option (BufferSlice × CircularBuffer) :=
  if length = 0 then none
  else if length > b.valid_length then none
  else
    let start := b.read
    let b' := { b with read := (b.read + length) % b.size, full := false }
    some (b.get_buffer_slice start length, b')

/-- Structural well-formedness of a buffer: positive capacity, in-range
indices, and the full bit only when `read = write`. Holds for `new` and is
preserved by both operations. -/
def CircularBuffer.WF (b : CircularBuffer) : Prop :=
  0 < b.size ∧ b.read < b.size ∧ b.write < b.size ∧ (b.full = true → b.read = b.write)

/-- Abstraction: the queue of bytes currently held, oldest first. -/
def CircularBuffer.contents (b : CircularBuffer) : List Nat :=
  List.ofFn fun i : Fin b.valid_length => b.buffer ((b.read + i) % b.size)

/-! ### Packet-id allocator (`raiot-client-base/src/lib.rs`) -/

/-- `PacketsNumerator { value: u16 }`. -/
structure PacketsNumerator where
  value : Nat
deriving Repr, DecidableEq

/-- `PacketsNumerator::new()`. -/
def PacketsNumerator.new : PacketsNumerator := { value := 0 }

/-- `next(): self.value += 1; self.value.into()`. `u16` addition wraps at
`2^16` (release semantics; a debug build panics on the overflow instead).
Returns the issued packet id and the updated allocator. -/
def PacketsNumerator.next (p : PacketsNumerator) : Nat × PacketsNumerator :=
  let v := (p.value + 1) % 65536
  (v, { value := v })

/-- The allocator state after `n` calls to `next()`. -/
def PacketsNumerator.afterCalls : Nat → PacketsNumerator
  | 0 => .new
  | n + 1 => ((PacketsNumerator.afterCalls n).next).2

/-! ### String utilities used by the codec

Rust `str::split(sep)`, `percent_encoding` and `url::form_urlencoded`, over
`List Char`. -/

/-- Left brace and right brace characters, named to keep brace characters out
of string literals. -/
def lbraceChar : Char := Char.ofNat 123

/-- Right brace character. -/
def rbraceChar : Char := Char.ofNat 125

/-- Rust `str::split(sep)`: `"a/b" → ["a","b"]`, `"" → [""]`, `"a/" → ["a",""]`. -/
def splitOnChar (sep : Char) : List Char → List (List Char)
  | [] => [[]]
  | c :: cs =>
    let r := splitOnChar sep cs
    if c = sep then [] :: r
    else
      match r with
      | [] => [[c]]
      | g :: gs => (c :: g) :: gs

/-- Split at the first occurrence of `sep`: the part before it and, when the
separator occurs, the part after it (Rust `splitn(2, sep)`). -/
def splitAtFirst (sep : Char) : List Char → List Char × Option (List Char)
  | [] => ([], none)
  | c :: cs =>
    if c = sep then ([], some cs)
    else
      let r := splitAtFirst sep cs
      (c :: r.1, r.2)

/-- Value of an ASCII hex digit. -/
def hexDigitValue (c : Char) : Option Nat :=
  if '0' ≤ c ∧ c ≤ '9' then some (c.toNat - '0'.toNat)
  else if 'a' ≤ c ∧ c ≤ 'f' then some (c.toNat - 'a'.toNat + 10)
  else if 'A' ≤ c ∧ c ≤ 'F' then some (c.toNat - 'A'.toNat + 10)
  else none

/-- Uppercase hex digit of a value `< 16` (`percent_encoding` emits uppercase). -/
def hexDigitUpper (n : Nat) : Char :=
  if n < 10 then Char.ofNat ('0'.toNat + n) else Char.ofNat ('A'.toNat + n - 10)

/-- ASCII alphanumeric test (the complement of the `NON_ALPHANUMERIC` set). -/
def isAsciiAlphanumeric (c : Char) : Bool :=
  ('0' ≤ c && c ≤ '9') || ('a' ≤ c && c ≤ 'z') || ('A' ≤ c && c ≤ 'Z')

/-- `utf8_percent_encode(s, NON_ALPHANUMERIC)`: every byte outside
`[0-9A-Za-z]` becomes `%XX` (uppercase hex). One byte per `Char` (ASCII). -/
def utf8PercentEncode : List Char → List Char
  | [] => []
  | c :: cs =>
    (if isAsciiAlphanumeric c then [c]
     else ['%', hexDigitUpper (c.toNat / 16), hexDigitUpper (c.toNat % 16)]) ++
    utf8PercentEncode cs

/-- `percent_decode`: `%XX` with two hex digits becomes the byte `XX`; a `%`
not followed by two hex digits stays literal. -/
def percentDecode : List Char → List Char
  | [] => []
  | '%' :: h1 :: h2 :: rest =>
    match hexDigitValue h1, hexDigitValue h2 with
    | some v1, some v2 => Char.ofNat (v1 * 16 + v2) :: percentDecode rest
    | _, _ => '%' :: percentDecode (h1 :: h2 :: rest)
  | c :: rest => c :: percentDecode rest

/-- `form_urlencoded` component decoding: `+` becomes a space, then
percent-decoding. -/
def decodePlusPercent (s : List Char) : List Char :=
  percentDecode (s.map fun c => if c = '+' then ' ' else c)

/-- `form_urlencoded::parse`: split the input on `&`, skip empty pieces,
split each piece at the first `=` (missing value is empty), and decode both
components. -/
def formUrlencodedParse (s : List Char) : List (List Char × List Char) :=
  (splitOnChar '&' s).filterMap fun piece =>
    if piece = [] then none
    else
      let kv := splitAtFirst '=' piece
      some (decodePlusPercent kv.1, decodePlusPercent (kv.2.getD []))

/-- `HashMap` built by `collect()` from pairs: lookup takes the last binding
of the key (later inserts overwrite earlier ones). -/
def hmGet (pairs : List (List Char × List Char)) (key : List Char) : Option (List Char) :=
  ((pairs.filter fun p => p.1 = key).getLast?).map Prod.snd

/-- `HashMap::remove`, on the same model: drop every binding of the key. -/
def hmRemove (pairs : List (List Char × List Char)) (key : List Char) :
    List (List Char × List Char) :=
  pairs.filter fun p => ¬ p.1 = key

/-- Rust `str::parse::<uN>()`: an optional leading `+`, then one or more
decimal digits, value at most `bound` (otherwise overflow, an error). -/
def rustParseNat (bound : Nat) (s : List Char) : Option Nat :=
  let digits := match s with
    | '+' :: rest => rest
    | s => s
  if digits = [] then none
  else if digits.all fun c => '0' ≤ c && c ≤ '9' then
    let v := digits.foldl (fun acc c => acc * 10 + (c.toNat - '0'.toNat)) 0
    if v ≤ bound then some v else none
  else none

/-- `str::parse::<u16>()`. -/
def rustParseU16 (s : List Char) : Option Nat := rustParseNat 65535 s

/-- `str::parse::<u64>()`. -/
def rustParseU64 (s : List Char) : Option Nat := rustParseNat (2 ^ 64 - 1) s

/-- `a.isPrefixOf`-style check used for `str::starts_with`. -/
def beginsWith (pre s : List Char) : Bool := pre.isPrefixOf s

/-- The result of `Url::parse("mqtt://" ++ topic)`, restricted to what the
codec consumes: the opaque host (up to the first `/` or `?`), the path
segments (`path_segments()`, `none` when the topic has no `/` before the
query, where the source's `.unwrap()` would panic), and the raw query (the
part after the first `?`). -/
structure ParsedUrl where
  host : List Char
  path_segments : Option (List (List Char))
  query : Option (List Char)
deriving Repr, DecidableEq

/-- Parse `mqtt://<topic>` as the `url` crate does for an opaque-host scheme. -/
def urlParseMqtt (topic : List Char) : ParsedUrl :=
  let q := splitAtFirst '?' topic
  let h := splitAtFirst '/' q.1
  { host := h.1
    path_segments := h.2.map (splitOnChar '/')
    query := q.2 }

/-- `url.query_pairs().into_owned().collect::<HashMap<_, _>>()`: the
form-urlencoded pairs of the query (empty when there is no query). -/
def queryPairs (u : ParsedUrl) : List (List Char × List Char) :=
  formUrlencodedParse (u.query.getD [])

/-! ### JSON (the `serde_json` interface the codec consumes)

A structured value and a strict whole-input parser. Numbers keep their
source lexeme (no claim inspects numeric values of message bodies). -/

/-- A `serde_json::Value`. -/
inductive Json where
  | null
  | bool (b : Bool)
  | num (lexeme : List Char)
  | str (s : List Char)
  | arr (elems : List Json)
  | obj (fields : List (List Char × Json))

/-- JSON whitespace. -/
def isJsonWs (c : Char) : Bool := c = ' ' || c = '\t' || c = '\n' || c = '\r'

/-- Drop leading JSON whitespace. -/
def skipWs (s : List Char) : List Char := s.dropWhile isJsonWs

/-- Parse the body of a JSON string after the opening quote: plain characters,
the standard escapes, and `\uXXXX` (with surrogate pairs). Returns the
decoded characters and the input after the closing quote. -/
def parseStringRest : Nat → List Char → Option (List Char × List Char)
  | 0, _ => none
  | _, [] => none
  | fuel + 1, c :: rest =>
    if c = '"' then some ([], rest)
    else if c = '\\' then
      match rest with
      | [] => none
      | e :: rest2 =>
        let simpleEsc : Option Char :=
          if e = '"' then some '"'
          else if e = '\\' then some '\\'
          else if e = '/' then some '/'
          else if e = 'b' then some (Char.ofNat 8)
          else if e = 'f' then some (Char.ofNat 12)
          else if e = 'n' then some '\n'
          else if e = 'r' then some '\r'
          else if e = 't' then some '\t'
          else none
        match simpleEsc with
        | some d =>
          match parseStringRest fuel rest2 with
          | some (s, rem) => some (d :: s, rem)
          | none => none
        | none =>
          if e = 'u' then
            match rest2 with
            | h1 :: h2 :: h3 :: h4 :: rest3 =>
              match hexDigitValue h1, hexDigitValue h2, hexDigitValue h3, hexDigitValue h4 with
              | some v1, some v2, some v3, some v4 =>
                let n := ((v1 * 16 + v2) * 16 + v3) * 16 + v4
                if 0xD800 ≤ n ∧ n < 0xDC00 then
                  match rest3 with
                  | '\\' :: 'u' :: g1 :: g2 :: g3 :: g4 :: rest4 =>
                    match hexDigitValue g1, hexDigitValue g2, hexDigitValue g3, hexDigitValue g4 with
                    | some w1, some w2, some w3, some w4 =>
                      let m := ((w1 * 16 + w2) * 16 + w3) * 16 + w4
                      if 0xDC00 ≤ m ∧ m < 0xE000 then
                        let cp := 0x10000 + (n - 0xD800) * 0x400 + (m - 0xDC00)
                        match parseStringRest fuel rest4 with
                        | some (s, rem) => some (Char.ofNat cp :: s, rem)
                        | none => none
                      else none
                    | _, _, _, _ => none
                  | _ => none
                else if 0xDC00 ≤ n ∧ n < 0xE000 then none
                else
                  match parseStringRest fuel rest3 with
                  | some (s, rem) => some (Char.ofNat n :: s, rem)
                  | none => none
              | _, _, _, _ => none
            | _ => none
          else none
    else if c.toNat < 0x20 then none
    else
      match parseStringRest fuel rest with
      | some (s, rem) => some (c :: s, rem)
      | none => none

/-- One or more decimal digits: the digits and the rest of the input. -/
def takeDigits1 (s : List Char) : Option (List Char × List Char) :=
  let digits := s.takeWhile fun c => '0' ≤ c && c ≤ '9'
  if digits = [] then none else some (digits, s.drop digits.length)

/-- Parse a JSON number lexeme:
`-? (0 | [1-9][0-9]*) (\.[0-9]+)? ([eE][+-]?[0-9]+)?`. -/
def parseNumber (s : List Char) : Option (List Char × List Char) :=
  let signAndRest : List Char × List Char :=
    match s with
    | '-' :: rest => (['-'], rest)
    | s => ([], s)
  match takeDigits1 signAndRest.2 with
  | none => none
  | some (intDigits, rest1) =>
    if intDigits.length > 1 ∧ intDigits.headD '0' = '0' then none
    else
      let fracPart : Option (List Char × List Char) :=
        match rest1 with
        | '.' :: rest2 =>
          match takeDigits1 rest2 with
          | some (fd, rest3) => some ('.' :: fd, rest3)
          | none => none
        | _ => some ([], rest1)
      match fracPart with
      | none => none
      | some (frac, rest4) =>
        let expPart : Option (List Char × List Char) :=
          match rest4 with
          | 'e' :: rest5 =>
            match rest5 with
            | '+' :: rest6 =>
              (takeDigits1 rest6).map fun p => ('e' :: '+' :: p.1, p.2)
            | '-' :: rest6 =>
              (takeDigits1 rest6).map fun p => ('e' :: '-' :: p.1, p.2)
            | _ => (takeDigits1 rest5).map fun p => ('e' :: p.1, p.2)
          | 'E' :: rest5 =>
            match rest5 with
            | '+' :: rest6 =>
              (takeDigits1 rest6).map fun p => ('E' :: '+' :: p.1, p.2)
            | '-' :: rest6 =>
              (takeDigits1 rest6).map fun p => ('E' :: '-' :: p.1, p.2)
            | _ => (takeDigits1 rest5).map fun p => ('E' :: p.1, p.2)
          | _ => some ([], rest4)
        match expPart with
        | none => none
        | some (ex, rest7) =>
          some (signAndRest.1 ++ intDigits ++ frac ++ ex, rest7)

mutual

/-- Parse one JSON value; returns it and the rest of the input. -/
def parseValue : Nat → List Char → Option (Json × List Char)
  | 0, _ => none
  | fuel + 1, s =>
    match skipWs s with
    | 'n' :: 'u' :: 'l' :: 'l' :: rest => some (.null, rest)
    | 't' :: 'r' :: 'u' :: 'e' :: rest => some (.bool true, rest)
    | 'f' :: 'a' :: 'l' :: 's' :: 'e' :: rest => some (.bool false, rest)
    | '"' :: rest =>
      match parseStringRest (rest.length + 1) rest with
      | some (str, rem) => some (.str str, rem)
      | none => none
    | '[' :: rest =>
      match skipWs rest with
      | ']' :: rest2 => some (.arr [], rest2)
      | rest2 =>
        match parseElems fuel rest2 with
        | some (elems, rem) => some (.arr elems, rem)
        | none => none
    | c :: rest =>
      if c = lbraceChar then
        match skipWs rest with
        | c2 :: rest2 =>
          if c2 = rbraceChar then some (.obj [], rest2)
          else
            match parseFields fuel (c2 :: rest2) with
            | some (fields, rem) => some (.obj fields, rem)
            | none => none
        | [] => none
      else
        match parseNumber (c :: rest) with
        | some (lexeme, rem) => some (.num lexeme, rem)
        | none => none
    | [] => none

/-- Parse the comma-separated elements of a non-empty JSON array, including
the closing bracket. -/
def parseElems : Nat → List Char → Option (List Json × List Char)
  | 0, _ => none
  | fuel + 1, s =>
    match parseValue fuel s with
    | none => none
    | some (v, rest) =>
      match skipWs rest with
      | ',' :: rest2 =>
        match parseElems fuel rest2 with
        | some (vs, rem) => some (v :: vs, rem)
        | none => none
      | ']' :: rest2 => some ([v], rest2)
      | _ => none

/-- Parse the comma-separated fields of a non-empty JSON object, including
the closing brace. -/
def parseFields : Nat → List Char → Option (List (List Char × Json) × List Char)
  | 0, _ => none
  | fuel + 1, s =>
    match skipWs s with
    | '"' :: rest =>
      match parseStringRest (rest.length + 1) rest with
      | none => none
      | some (key, rest2) =>
        match skipWs rest2 with
        | ':' :: rest3 =>
          match parseValue fuel rest3 with
          | none => none
          | some (v, rest4) =>
            match skipWs rest4 with
            | ',' :: rest5 =>
              match parseFields fuel rest5 with
              | some (fs, rem) => some ((key, v) :: fs, rem)
              | none => none
            | c :: rest5 =>
              if c = rbraceChar then some ([(key, v)], rest5) else none
            | [] => none
        | _ => none
    | _ => none

end

/-- `serde_json::from_slice::<Value>` on a whole input: parse one value and
require only whitespace after it. -/
def parseJson (s : List Char) : Option Json :=
  match parseValue (s.length + 1) s with
  | some (v, rest) => if skipWs rest = [] then some v else none
  | none => none

/-- `CodecError` (`raiot-protocol/src/iot_codec.rs`). -/
inductive CodecError where
  | unexpectedMqttPacketType
  | invalidMqttPacket
  | invalidMessageBody
  | invalidTopic
  | missingRid
  | missingDeviceId
  | missingMethodName
  | missingVersion
  | missingStatusCode
  | invalidVersionIdentifier
deriving Repr, DecidableEq

/-- `deserialize_message_body::<serde_json::Value>`:
`serde_json::from_slice::<Option<Value>>` with any parse failure mapped to
`InvalidMessageBody`; the JSON literal `null` gives `None`. -/
def deserializeBodyValue (payload : List Char) : Except CodecError (Option Json) :=
  match parseJson payload with
  | none => .error .invalidMessageBody
  | some .null => .ok none
  | some v => .ok (some v)

/-- `deserialize_message_body::<String>`: additionally, a value that is not a
JSON string is a type error, also `InvalidMessageBody`. -/
def deserializeBodyString (payload : List Char) : Except CodecError (Option (List Char)) :=
  match parseJson payload with
  | none => .error .invalidMessageBody
  | some .null => .ok none
  | some (.str s) => .ok (some s)
  | some _ => .error .invalidMessageBody

/-- `deserialize_message_body::<serde_json::Map<String, Value>>`: a value that
is not a JSON object is a type error. -/
def deserializeBodyMap (payload : List Char) :
    Except CodecError (Option (List (List Char × Json))) :=
  match parseJson payload with
  | none => .error .invalidMessageBody
  | some .null => .ok none
  | some (.obj fields) => .ok (some fields)
  | some _ => .error .invalidMessageBody

/-! ### MQTT packets (the subset of the `mqtt` crate the codec consumes) -/

/-- `QoSWithPacketIdentifier`. -/
inductive QoSWithPacketIdentifier where
  | level0
  | level1 (pkid : Nat)
  | level2 (pkid : Nat)
deriving Repr, DecidableEq

/-- `ConnectReturnCode` (MQTT 3.1.1 CONNACK). -/
inductive ConnectReturnCode where
  | connectionAccepted
  | unacceptableProtocolVersion
  | identifierRejected
  | serviceUnavailable
  | badUserNameOrPassword
  | notAuthorized
  | reserved (code : Nat)
deriving Repr, DecidableEq

/-- `SubscribeReturnCode` (SUBACK entry). -/
inductive SubscribeReturnCode where
  | maximumQoSLevel0
  | maximumQoSLevel1
  | maximumQoSLevel2
  | failure
deriving Repr, DecidableEq

/-- `PublishPacket`: topic name, QoS with packet id, payload bytes. -/
structure PublishPacket where
  topic_name : List Char
  qos : QoSWithPacketIdentifier
  payload : List Char
deriving Repr, DecidableEq

/-- `VariablePacket`, collapsed to the packet kinds the codec dispatches on;
`other` stands for the remaining MQTT control packet kinds. -/
inductive VariablePacket where
  | connack (return_code : ConnectReturnCode)
  | publish (p : PublishPacket)
  | puback (packet_id : Nat)
  | suback (packet_id : Nat) (return_codes : List SubscribeReturnCode)
  | other
deriving Repr, DecidableEq

/-! ### IoT messages (`raiot-protocol/src/messages`) -/

/-- `ClientIdentity`: device or module. -/
inductive ClientIdentity where
  | device (device_id : List Char)
  | module (device_id module_id : List Char)
deriving Repr, DecidableEq

/-- `ConnectRes`. -/
inductive ConnectRes where
  | accepted
  | authenticationFailed
  | unauthorized
  | serviceUnavailable
  | timeout
  | unacceptableProtocolVersion
  | mqttReservedErrorCode (code : Nat)
  | protocolViolation
  | ioError
deriving Repr, DecidableEq

/-- `SubError`. -/
inductive SubError where
  | timeout
  | failure
deriving Repr, DecidableEq

/-- `SubRes`: packet id and `Result<(), SubError>`. -/
structure SubRes where
  packet_id : Nat
  result : Except SubError Unit
deriving Repr

/-- Twin `StatusCode`. -/
inductive StatusCode where
  | ok
  | noContent
  | tooManyRequests
  | badRequest
  | serverError (code : Nat)
  | unknownStatusCode (code : Nat)
deriving Repr, DecidableEq

/-- `C2DMsg`: `body: Option<String>`, `props: Option<HashMap<String, String>>`. -/
structure C2DMsg where
  packet_id : Option Nat
  body : Option (List Char)
  device_id : List Char
  props : Option (List (List Char × List Char))
deriving Repr, DecidableEq

/-- `DirectMethodReq`: `body: Option<serde_json::Value>`. -/
structure DirectMethodReq where
  packet_id : Option Nat
  request_id : List Char
  method_name : List Char
  body : Option Json

/-- `DesiredPropsUpdated`: `body: Map<String, Value>`. -/
structure DesiredPropsUpdated where
  packet_id : Option Nat
  body : List (List Char × Json)
  desired_properties_version : Nat

/-- `ReadTwinRes`. -/
structure ReadTwinRes where
  packet_id : Option Nat
  request_id : List Char
  status_code : StatusCode
  body : Option Json
  version : Option Nat

/-- `MsgFromHub`. -/
inductive MsgFromHub where
  | unknownMessage
  | connectResponseMessage (res : ConnectRes)
  | twinResponseMessage (res : ReadTwinRes)
  | desiredPropertiesUpdated (msg : DesiredPropsUpdated)
  | cloudToDeviceMessage (msg : C2DMsg)
  | directMethodInvocation (msg : DirectMethodReq)
  | subscriptionResponseMessage (res : SubRes)
  | publicationSucceeded (packet_id : Nat)

/-- `qos_to_packet_id`. -/
def qosToPacketId : QoSWithPacketIdentifier → Option Nat
  | .level0 => none
  | .level1 pkid => some pkid
  | .level2 pkid => some pkid

/-- `packet_id_to_qos`. -/
def packetIdToQos : Option Nat → QoSWithPacketIdentifier
  | some id => .level1 id
  | none => .level0

/-- The outcome of running a decode function: a message, a `CodecError`, or a
Rust panic (out-of-range slice,`.unwrap()` of an error, index out of bounds). -/
inductive DecodeOutcome where
  | ok (msg : MsgFromHub)
  | err (e : CodecError)
  | panicked

/-! ### IoT codec, decoding (`raiot-protocol/src/iot_codec.rs`) -/

/-- `get_status_code`, with the source's match-arm order. -/
def IotCodec.get_status_code (code : Nat) : StatusCode :=
  if code = 429 then .tooManyRequests
  else if code = 200 then .ok
  else if code = 204 then .noContent
  else if 500 ≤ code ∧ code ≤ 599 then .serverError code
  else .unknownStatusCode code

/-- `extract_version`: absent `$version` is fine; a present one must parse as
`u64`, otherwise `InvalidVersionIdentifier`. -/
def IotCodec.extract_version (map : List (List Char × List Char)) :
    Except CodecError (Option Nat) :=
  match hmGet map "$version".toList with
  | some version_string =>
    match rustParseU64 version_string with
    | some version => .ok (some version)
    | none => .error .invalidVersionIdentifier
  | none => .ok none

/-- `decode_twin_response`: `$rid` is required (removed from the query map),
the status code is the slice `topic[17..20]` parsed as `u16` (the slice
panics when the topic is shorter than 20 bytes), the body is deserialized
only when the code is 200, and `$version` is extracted last. -/
def IotCodec.decode_twin_response (p : PublishPacket) : DecodeOutcome :=
  let topic := p.topic_name
  let parsed_url := urlParseMqtt topic
  let hash_query := queryPairs parsed_url
  match hmGet hash_query "$rid".toList with
  | none => .err .missingRid
  | some rid =>
    let hash_query := hmRemove hash_query "$rid".toList
    if 20 ≤ topic.length then
      match rustParseU16 ((topic.drop 17).take 3) with
      | none => .err .missingStatusCode
      | some code =>
        let bodyRes : Except CodecError (Option Json) :=
          if code = 200 then deserializeBodyValue p.payload else .ok none
        match bodyRes with
        | .error e => .err e
        | .ok body =>
          match IotCodec.extract_version hash_query with
          | .error e => .err e
          | .ok version =>
            .ok (.twinResponseMessage
              { packet_id := qosToPacketId p.qos
                request_id := rid
                status_code := IotCodec.get_status_code code
                body := body
                version := version })
    else .panicked

/-- `decode_c2d_message`: body first (as `Option<String>`), then the topic
split on `/`: segment 1 is the device id, segment 4 (when present) is the
form-urlencoded property bag. -/
def IotCodec.decode_c2d_message (p : PublishPacket) : DecodeOutcome :=
  match deserializeBodyString p.payload with
  | .error e => .err e
  | .ok body =>
    match splitOnChar '/' p.topic_name with
    | [] => .err .invalidTopic
    | _ :: rest =>
      match rest with
      | [] => .err .missingDeviceId
      | device_id :: rest2 =>
        let props : Option (List (List Char × List Char)) :=
          match rest2.drop 2 with
          | [] => none
          | value :: _ => some (formUrlencodedParse value)
        .ok (.cloudToDeviceMessage
          { packet_id := qosToPacketId p.qos
            body := body
            device_id := device_id
            props := props })

/-- `decode_direct_method_invocation`: `$rid` required, then the body (as
`Option<Value>`), then the method name is the third path segment,
percent-decoded. `path_segments().unwrap()` panics when the topic has no
path. -/
def IotCodec.decode_direct_method_invocation (p : PublishPacket) : DecodeOutcome :=
  let parsed_url := urlParseMqtt p.topic_name
  let hash_query := queryPairs parsed_url
  match hmGet hash_query "$rid".toList with
  | none => .err .missingRid
  | some request_id =>
    match deserializeBodyValue p.payload with
    | .error e => .err e
    | .ok body =>
      match parsed_url.path_segments with
      | none => .panicked
      | some segments =>
        match segments with
        | [] => .err .invalidTopic
        | _ :: [] => .err .invalidTopic
        | _ :: _ :: [] => .err .missingMethodName
        | _ :: _ :: name :: _ =>
          .ok (.directMethodInvocation
            { body := body
              request_id := request_id
              method_name := percentDecode name
              packet_id := qosToPacketId p.qos })

/-- `decode_desired_properties_update`: `$version` required and parsed as
`u64`; the body must deserialize to a JSON object (a `null` body is
`InvalidMessageBody`). -/
def IotCodec.decode_desired_properties_update (p : PublishPacket) : DecodeOutcome :=
  let parsed_url := urlParseMqtt p.topic_name
  let hash_query := queryPairs parsed_url
  match hmGet hash_query "$version".toList with
  | none => .err .missingVersion
  | some version_string =>
    match rustParseU64 version_string with
    | none => .err .invalidVersionIdentifier
    | some version =>
      match deserializeBodyMap p.payload with
      | .error e => .err e
      | .ok none => .err .invalidMessageBody
      | .ok (some body) =>
        .ok (.desiredPropertiesUpdated
          { packet_id := qosToPacketId p.qos
            body := body
            desired_properties_version := version })

/-- `decode_publish_packet`: dispatch on topic prefixes, in the source's
order. -/
def IotCodec.decode_publish_packet (p : PublishPacket) : DecodeOutcome :=
  if beginsWith "$iothub/twin/res/".toList p.topic_name then
    IotCodec.decode_twin_response p
  else if beginsWith "$iothub/twin/PATCH/properties/desired/".toList p.topic_name then
    IotCodec.decode_desired_properties_update p
  else if beginsWith "$iothub/methods/POST/".toList p.topic_name then
    IotCodec.decode_direct_method_invocation p
  else if beginsWith "devices/".toList p.topic_name then
    IotCodec.decode_c2d_message p
  else .ok .unknownMessage

/-- `decode_connack_packet`. -/
def IotCodec.decode_connack_packet (rc : ConnectReturnCode) : DecodeOutcome :=
  .ok (.connectResponseMessage
    (match rc with
     | .connectionAccepted => .accepted
     | .badUserNameOrPassword => .authenticationFailed
     | .serviceUnavailable => .serviceUnavailable
     | .unacceptableProtocolVersion => .unacceptableProtocolVersion
     | .identifierRejected => .authenticationFailed
     | .notAuthorized => .unauthorized
     | .reserved code => .mqttReservedErrorCode code))

/-- `decode_suback_packet`: the first return code decides success;
`subscribes()[0]` panics when the SUBACK carries no return code. -/
def IotCodec.decode_suback_packet (packet_id : Nat)
    (return_codes : List SubscribeReturnCode) : DecodeOutcome :=
  match return_codes with
  | [] => .panicked
  | rc :: _ =>
    .ok (.subscriptionResponseMessage
      { packet_id := packet_id
        result := match rc with
          | .failure => .error SubError.failure
          | _ => .ok () })

/-- `decode_puback_packet`. -/
def IotCodec.decode_puback_packet (packet_id : Nat) : DecodeOutcome :=
  .ok (.publicationSucceeded packet_id)

/-- `decode_packet`: dispatch on the MQTT packet kind. -/
def IotCodec.decode_packet : VariablePacket → DecodeOutcome
  | .connack rc => IotCodec.decode_connack_packet rc
  | .publish p => IotCodec.decode_publish_packet p
  | .puback packet_id => IotCodec.decode_puback_packet packet_id
  | .suback packet_id return_codes => IotCodec.decode_suback_packet packet_id return_codes
  | .other => .err .unexpectedMqttPacketType

/-! ### IoT codec, encoding (`raiot-protocol/src/iot_codec.rs`) -/

/-- Render one character of a JSON string (serde's compact escaping). -/
def renderStringChar (c : Char) : List Char :=
  if c = '"' then ['\\', '"']
  else if c = '\\' then ['\\', '\\']
  else if c = '\n' then ['\\', 'n']
  else if c = '\r' then ['\\', 'r']
  else if c = '\t' then ['\\', 't']
  else if c = Char.ofNat 8 then ['\\', 'b']
  else if c = Char.ofNat 12 then ['\\', 'f']
  else if c.toNat < 0x20 then
    ['\\', 'u', '0', '0', hexDigitUpper (c.toNat / 16), hexDigitUpper (c.toNat % 16)]
  else [c]

/-- Render a JSON string literal, quotes included. -/
def renderString (s : List Char) : List Char :=
  '"' :: (s.map renderStringChar).flatten ++ ['"']

mutual

/-- `serde_json::Value::to_string()` (compact form). -/
def Json.render : Json → List Char
  | .null => "null".toList
  | .bool true => "true".toList
  | .bool false => "false".toList
  | .num lexeme => lexeme
  | .str s => renderString s
  | .arr elems => '[' :: Json.renderElems elems ++ [']']
  | .obj fields => lbraceChar :: Json.renderFields fields ++ [rbraceChar]

/-- Comma-joined rendering of array elements. -/
def Json.renderElems : List Json → List Char
  | [] => []
  | [v] => Json.render v
  | v :: vs => Json.render v ++ ',' :: Json.renderElems vs

/-- Comma-joined rendering of object fields. -/
def Json.renderFields : List (List Char × Json) → List Char
  | [] => []
  | [f] => renderString f.1 ++ ':' :: Json.render f.2
  | f :: fs => renderString f.1 ++ ':' :: Json.render f.2 ++ ',' :: Json.renderFields fs

end

/-- `DeliveryGuarantees`. -/
inductive DeliveryGuarantees where
  | atMostOnce
  | atLeastOnce
deriving Repr, DecidableEq

/-- `TelemetryMsg`: headers model the `HashMap` in its iteration order. -/
structure TelemetryMsg where
  client_id : ClientIdentity
  content : Option Json
  packet_id : Option Nat
  headers : Option (List (List Char × List Char))

/-- `C2DSub`. -/
structure C2DSub where
  packet_id : Nat
  device_id : List Char
  mode : DeliveryGuarantees
deriving Repr, DecidableEq

/-- A SUBSCRIBE packet: packet id plus `(topic_filter, qos)` pairs. -/
structure SubscribePacket where
  packet_id : Nat
  filters : List (List Char × DeliveryGuarantees)
deriving Repr, DecidableEq

/-- The header bag of `encode_telemetry_message`: `&`-joined `key=value`
pairs, each key and value percent-encoded with `NON_ALPHANUMERIC`
(the source's first-flag loop, written as recursion). -/
def headerBag : List (List Char × List Char) → List Char
  | [] => []
  | [(key, value)] => utf8PercentEncode key ++ '=' :: utf8PercentEncode value
  | (key, value) :: rest =>
    utf8PercentEncode key ++ '=' :: utf8PercentEncode value ++ '&' :: headerBag rest

/-- `encode_telemetry_message`: the topic embeds `device_id` (and
`module_id`) as they are, appends the header bag, and the payload is the
JSON of the content (empty when there is none). -/
def IotCodec.encode_telemetry_message (message : TelemetryMsg) : PublishPacket :=
  let channel :=
    match message.client_id with
    | .device device_id => "devices/".toList ++ device_id ++ "/messages/events/".toList
    | .module device_id module_id =>
      "devices/".toList ++ device_id ++ "/modules/".toList ++ module_id ++
        "/messages/events/".toList
  let channel :=
    match message.headers with
    | some headers => channel ++ headerBag headers
    | none => channel
  { topic_name := channel
    qos := packetIdToQos message.packet_id
    payload := match message.content with
      | some value => Json.render value
      | none => [] }

/-- `encode_subscription`: a single-filter SUBSCRIBE. -/
def IotCodec.encode_subscription (packet_id : Nat) (topic_filter : List Char)
    (mode : DeliveryGuarantees) : SubscribePacket :=
  { packet_id := packet_id, filters := [(topic_filter, mode)] }

/-- `encode_c2d_messages_subscription`: filter
`devices/<device_id>/messages/devicebound/#` with the device id embedded as
it is. -/
def IotCodec.encode_c2d_messages_subscription (message : C2DSub) : SubscribePacket :=
  IotCodec.encode_subscription message.packet_id
    ("devices/".toList ++ message.device_id ++ "/messages/devicebound/#".toList)
    message.mode

/-! ### Completion handles and the socket loop
(`raiot-client/src/iot_socket.rs`)

The shared `Arc<Mutex<MessageState>>` cells live in a heap addressed by
handle ids; a registered `Waker` is a token, and `waker.wake()` is modelled
by appending the handle id to a global `wakes` log. -/

/-- `MsgStatus`. -/
inductive MsgStatus where
  | pending
  | sent
  | sendFailed
  | acknowledged
  | rejected
  | timedOut
deriving Repr, DecidableEq

/-- `MessageState { status, waker }`; the waker is a token. -/
structure MessageState where
  status : MsgStatus
  waker : Option Nat
deriving Repr, DecidableEq

/-- `From<SubRes> for MsgStatus`. -/
def msgStatusOfSubRes (resp : SubRes) : MsgStatus :=
  match resp.result with
  | .ok _ => .acknowledged
  | .error _ => .rejected

/-- A message taken from the outgoing queue: the id of its shared state cell
and its optional packet id. -/
structure MessageInFlight where
  handle : Nat
  packet_id : Option Nat
deriving Repr, DecidableEq

/-- The part of `IotSocketCtl` the send/ack paths touch: the heap of shared
`MessageState` cells, the pending-ACK map, the send-retry slot, and the log
of waker invocations (handle ids, in order). -/
structure IotSocketCtl where
  states : Nat → MessageState
  awaiting_acks : List (Nat × Nat)
  tx_buf : Option MessageInFlight
  wakes : List Nat

/-- Replace the status of one shared state cell (a mutation under its
mutex). -/
def IotSocketCtl.setStatus (c : IotSocketCtl) (handle : Nat) (status : MsgStatus) :
    IotSocketCtl :=
  { c with states := fun h =>
      if h = handle then { c.states h with status := status } else c.states h }

/-- The result `stream.try_send` produced for the encoded bytes. -/
inductive SendOutcome where
  | ok
  | wouldBlock
  | interrupted
  | fatal
deriving Repr, DecidableEq

/-- `send_next`, given the message taken from the queue (`None` when the
queue was empty) and the stream's behavior. Returns the updated control
state and the boolean `send_next` returns. On success the status becomes
`Sent`; on a fatal stream error it becomes `SendFailed`; in neither case is
the registered waker invoked or removed. -/
def IotSocketCtl.send_next (c : IotSocketCtl) (msg : Option MessageInFlight)
    (send_result : SendOutcome) : IotSocketCtl × Bool :=
  match msg with
  | none => ({ c with tx_buf := none }, false)
  | some msg =>
    let c := { c with tx_buf := none }
    let c :=
      match msg.packet_id with
      | some packet_id =>
        if (c.awaiting_acks.map Prod.fst).contains packet_id then c
        else { c with awaiting_acks := c.awaiting_acks ++ [(packet_id, msg.handle)] }
      | none => c
    match send_result with
    | .ok => (c.setStatus msg.handle .sent, true)
    | .wouldBlock => ({ c with tx_buf := some msg }, false)
    | .interrupted => ({ c with tx_buf := some msg }, true)
    | .fatal => (c.setStatus msg.handle .sendFailed, true)

/-- `handle_ack`: remove the pending entry for the packet id; when one was
present, set its status to the result and invoke (and clear) the registered
waker. -/
def IotSocketCtl.handle_ack (c : IotSocketCtl) (packet_id : Nat) (result : MsgStatus) :
    IotSocketCtl :=
  match (c.awaiting_acks.filter fun p => p.1 = packet_id).getLast? with
  | none => c
  | some (_, handle) =>
    let acks := c.awaiting_acks.filter fun p => ¬ p.1 = packet_id
    let s := c.states handle
    { c with
      awaiting_acks := acks
      states := fun h =>
        if h = handle then { status := result, waker := none } else c.states h
      wakes := c.wakes ++ (match s.waker with | some _ => [handle] | none => []) }

/-- What one `recv_next` iteration does with a complete packet: dispatch the
decoded message, or hit `panic!("Failure decoding IoT packet")` on a codec
error (a decode-internal panic also crashes the thread). -/
inductive RecvStep where
  | dispatched (msg : MsgFromHub)
  | panickedStep

/-- The decode arm of `IotSocketCtl::recv_next`. -/
def IotSocketCtl.recv_next_decode (packet : VariablePacket) : RecvStep :=
  match IotCodec.decode_packet packet with
  | .ok msg => .dispatched msg
  | .err _ => .panickedStep
  | .panicked => .panickedStep

/-- The decode step of `IotClient::process` (`raiot-stclient/src/lib.rs`):
`IotCodec::decode_packet(packet).unwrap()` panics on a codec error. -/
def IotClient.process_decode (packet : VariablePacket) : RecvStep :=
  match IotCodec.decode_packet packet with
  | .ok msg => .dispatched msg
  | .err _ => .panickedStep
  | .panicked => .panickedStep

/-! ### Connection state machine (`raiot-mqtt/src/connection.rs`) -/

/-- `std::io::ErrorKind`, restricted to the kinds the connection code
distinguishes. -/
inductive IOErrorKind where
  | wouldBlock
  | interrupted
  | timedOut
  | connectionAborted
  | invalidData
  | otherError
deriving Repr, DecidableEq

/-- The environment one `complete()` poll runs in: whether the deadline
elapsed, whether the CONNECT bytes are already fully sent (the
AwaitingConnack phase), the result of `send_next` otherwise, the successive
results of `append_from_reader`, and what `get_next_packet` then yields. -/
structure ConnEnv where
  timedOut : Bool
  txEmpty : Bool
  sendOutcome : Except IOErrorKind Unit
  readResults : List (Except IOErrorKind Nat)
  packetizerResult : Except IOErrorKind (Option VariablePacket)

/-- How the `append_from_reader` loop of `complete()` ends. -/
inductive ReadLoopEnd where
  | blocked
  | aborted
  | fatal (e : IOErrorKind)
  | envIncomplete
deriving Repr, DecidableEq

/-- The read loop: `Ok(0)` aborts, `Ok(n)` and `Interrupted` keep looping,
`WouldBlock` breaks, any other error is fatal. `envIncomplete` marks an
environment that does not determine the loop's exit. -/
def readLoop : List (Except IOErrorKind Nat) → ReadLoopEnd
  | [] => .envIncomplete
  | .ok 0 :: _ => .aborted
  | .ok (_ + 1) :: rest => readLoop rest
  | .error .interrupted :: rest => readLoop rest
  | .error .wouldBlock :: _ => .blocked
  | .error e :: _ => .fatal e

/-- The result of one `MqttConnectionInProgress::complete()` poll. -/
inductive CompleteRes where
  | connected
  | wouldBlock
  | connectFailed (rc : ConnectReturnCode)
  | ioError (e : IOErrorKind)
  | protocolViolation
  | panickedPoll
  | envIncomplete
deriving Repr, DecidableEq

/-- `process_connack`: Accepted yields the connection, anything else fails
with `ConnectFailed(code)`. -/
def processConnack (rc : ConnectReturnCode) : CompleteRes :=
  match rc with
  | .connectionAccepted => .connected
  | other => .connectFailed other

/-- One `complete()` poll: deadline first; drain the CONNECT if still
buffered (`send_next` errors of kind WouldBlock yield `WouldBlock(self)`);
then the read loop; then `get_next_packet`: no packet yields
`WouldBlock(self)`, a CONNACK goes to `process_connack`, any other packet is
`ProtocolViolation`, an `InvalidData` error is `ProtocolViolation`, and any
other packetizer error hits the source's `panic!`. -/
def MqttConnectionInProgress.complete (env : ConnEnv) : CompleteRes :=
  if env.timedOut then .ioError .timedOut
  else
    match (if env.txEmpty then Except.ok () else env.sendOutcome) with
    | .error .wouldBlock => .wouldBlock
    | .error e => .ioError e
    | .ok _ =>
      match readLoop env.readResults with
      | .aborted => .ioError .connectionAborted
      | .fatal e => .ioError e
      | .envIncomplete => .envIncomplete
      | .blocked =>
        match env.packetizerResult with
        | .ok none => .wouldBlock
        | .ok (some (.connack rc)) => processConnack rc
        | .ok (some _) => .protocolViolation
        | .error .invalidData => .protocolViolation
        | .error _ => .panickedPoll

/-! ### Subscription state machine (`raiot-stclient/src/sub.rs`)

Handlers are opaque callbacks; they are modelled by tokens of arbitrary
types `H` (message handler) and `E` (error handler). -/

/-- `SubState<M>`. -/
inductive SubState (H E : Type) where
  | unsubscribed
  | subscribing (msg_handler : H) (error_handler : E) (packet_id : Nat)
  | subscribed (msg_handler : H)
deriving Repr, DecidableEq

/-- `SubState::try_complete`: on a matching packet id, success keeps the
message handler and moves to `Subscribed`; failure moves to `Unsubscribed`
and invokes the error handler (returned as the third component); anything
else leaves the state unchanged and returns `false`. -/
def SubState.try_complete (s : SubState H E) (res : SubRes) :
    SubState H E × Bool × Option E :=
  match s with
  | .subscribing msg_handler error_handler packet_id =>
    if packet_id = res.packet_id then
      match res.result with
      | .ok _ => (.subscribed msg_handler, true, none)
      | .error _ => (.unsubscribed, true, some error_handler)
    else (s, false, none)
  | _ => (s, false, none)

/-! ### Sequences of buffer operations (for the ring FIFO law) -/

/-- One circular-buffer operation. -/
inductive BufOp where
  | append (bytes : List Nat)
  | read (len : Nat)
deriving Repr, DecidableEq

/-- Run a sequence of operations, collecting the concatenation of all bytes
the reads return; `none` when an append fails with `WriteZero` or a read
panics. -/
def runOps : CircularBuffer → List BufOp → Option (List Nat × CircularBuffer)
  | b, [] => some ([], b)
  | b, .append bytes :: ops =>
    match b.append_all_bytes bytes with
    | .error _ => none
    | .ok b' => runOps b' ops
  | b, .read len :: ops =>
    match b.read_bytes len with
    | none => none
    | some (sl, b') =>
      match runOps b' ops with
      | none => none
      | some (out, bf) => some (sl.toList ++ out, bf)

/-- The side condition of the FIFO law: starting from `pending` buffered
bytes, every append keeps the buffered amount within the capacity and every
read is positive and within the bytes currently buffered. -/
def opsOk (cap : Nat) : Nat → List BufOp → Bool
  | _, [] => true
  | pending, .append bytes :: ops =>
    pending + bytes.length ≤ cap && opsOk cap (pending + bytes.length) ops
  | pending, .read len :: ops =>
    decide (0 < len) && decide (len ≤ pending) && opsOk cap (pending - len) ops

/-- The concatenation of all bytes appended by a sequence of operations. -/
def appendedBytes : List BufOp → List Nat
  | [] => []
  | .append bytes :: ops => bytes ++ appendedBytes ops
  | .read _ :: ops => appendedBytes ops

/-! ## Theorems -/

/-- The allocator value after `n` calls is `n` modulo `2^16`. -/
theorem numerator_value_after (n : Nat) :
    (PacketsNumerator.afterCalls n).value = n % 65536 := by
  induction n with
  | zero => rfl
  | succ n ih =>
    simp only [PacketsNumerator.afterCalls, PacketsNumerator.next, ih]
    omega

/-- C2: the claim says `next()` issues values in `{1..=65535}`, never 0, and
wraps from `0xFFFF` back to 1. On the code the `n+1`-st call returns
`(n+1) % 2^16`, so the call after the one returning `0xFFFF` returns 0 (in a
release build; a debug build panics on the `u16` overflow): 0 is issued and
the wrap does not resume at 1. -/
theorem claim_C2_packet_id_wrap :
    (∀ n : Nat, ((PacketsNumerator.afterCalls n).next).1 = (n + 1) % 65536) ∧
    ((PacketsNumerator.afterCalls 65534).next).1 = 65535 ∧
    ((PacketsNumerator.afterCalls 65535).next).1 = 0 := by
  refine ⟨fun n => ?_, ?_, ?_⟩
  · simp only [PacketsNumerator.next, numerator_value_after]
    omega
  · simp only [PacketsNumerator.next, numerator_value_after]
  · simp only [PacketsNumerator.next, numerator_value_after]

/-- C3: the claim says every transition of a completion handle to a terminal
status invokes the registered waker exactly once, in particular the
transition to `SendFailed` on a transport write error. On the code,
`send_next` sets `Sent` and `SendFailed` without touching the waker (the
wake log stays empty and the waker stays registered); only `handle_ack`
wakes. -/
theorem claim_C3_terminal_transition_waker :
    let c0 : IotSocketCtl :=
      { states := fun _ => { status := .pending, waker := some 5 }
        awaiting_acks := [], tx_buf := none, wakes := [] }
    let msg : MessageInFlight := { handle := 0, packet_id := some 1 }
    let cFail := (c0.send_next (some msg) .fatal).1
    let cSent := (c0.send_next (some msg) .ok).1
    let cAck := cSent.handle_ack 1 .acknowledged
    ((cFail.states 0).status = .sendFailed ∧ (cFail.states 0).waker = some 5 ∧
      cFail.wakes = []) ∧
    ((cSent.states 0).status = .sent ∧ (cSent.states 0).waker = some 5 ∧
      cSent.wakes = []) ∧
    ((cAck.states 0).status = .acknowledged ∧ (cAck.states 0).waker = none ∧
      cAck.wakes = [0]) :=
  ⟨⟨rfl, rfl, rfl⟩, ⟨rfl, rfl, rfl⟩, ⟨rfl, rfl, rfl⟩⟩

/-- C4: the claim says a codec error on an inbound packet is logged, the
message dropped, and the session continues. On the code, a C2D PUBLISH with
an empty (hence non-JSON) payload decodes to `InvalidMessageBody`, and both
`IotSocketCtl::recv_next` (via `panic!`) and `IotClient::process` (via
`.unwrap()`) panic on it instead of continuing. -/
theorem claim_C4_codec_error_panics :
    let pkt : VariablePacket := .publish
      { topic_name := "devices/dev1/messages/devicebound".toList
        qos := .level0
        payload := [] }
    IotCodec.decode_packet pkt = .err .invalidMessageBody ∧
    IotSocketCtl.recv_next_decode pkt = .panickedStep ∧
    IotClient.process_decode pkt = .panickedStep :=
  ⟨rfl, rfl, rfl⟩

/-- C8: a SUBACK whose packet id does not match a `Subscribing` state leaves
the state unchanged (and so does any SUBACK on `Unsubscribed` or
`Subscribed`); a matching success moves `Subscribing` to `Subscribed`
keeping the message handler; a matching failure invokes the error handler
and moves to `Unsubscribed`. -/
theorem claim_C8_substate_suback {H E : Type} (s : SubState H E) (res : SubRes) :
    (∀ h e pid, s = .subscribing h e pid → pid ≠ res.packet_id →
        s.try_complete res = (s, false, none)) ∧
    (s = .unsubscribed → s.try_complete res = (s, false, none)) ∧
    (∀ h, s = .subscribed h → s.try_complete res = (s, false, none)) ∧
    (∀ h e, s = .subscribing h e res.packet_id → res.result = .ok () →
        s.try_complete res = (.subscribed h, true, none)) ∧
    (∀ h e err, s = .subscribing h e res.packet_id → res.result = .error err →
        s.try_complete res = (.unsubscribed, true, some e)) := by
  refine ⟨?_, ?_, ?_, ?_, ?_⟩
  · intro h e pid hs hne
    subst hs
    simp [SubState.try_complete, hne]
  · intro hs
    subst hs
    simp [SubState.try_complete]
  · intro h hs
    subst hs
    simp [SubState.try_complete]
  · intro h e hs hok
    subst hs
    simp [SubState.try_complete, hok]
  · intro h e err hs herr
    subst hs
    simp [SubState.try_complete, herr]

/-- Witness for C8 at concrete inputs: a matching successful SUBACK moves a
`Subscribing` state (handler token 1, error token 2, packet id 5) to
`Subscribed 1`. -/
theorem claim_C8_substate_suback_witness :
    (SubState.subscribing (H := Nat) (E := Nat) 1 2 5).try_complete
      { packet_id := 5, result := .ok () } = (.subscribed 1, true, none) :=
  (claim_C8_substate_suback (.subscribing 1 2 5)
      { packet_id := 5, result := .ok () }).2.2.2.1 1 2 rfl rfl

/-- C7: in the AwaitingConnack phase (deadline not yet elapsed, CONNECT
fully drained), once the read loop blocks: a decoded non-CONNACK packet
fails with `ProtocolViolation`; a CONNACK with `Accepted` yields the
connected session; a CONNACK with any other return code fails with
`ConnectFailed(code)`; and whenever the transport read returns 0 bytes the
poll fails with `ConnectionAborted`. -/
theorem claim_C7_awaiting_connack_outcomes (env : ConnEnv)
    (hTime : env.timedOut = false) (hTx : env.txEmpty = true) :
    (readLoop env.readResults = .blocked →
      ((∀ p, env.packetizerResult = .ok (some p) → (∀ rc, p ≠ .connack rc) →
          MqttConnectionInProgress.complete env = .protocolViolation) ∧
       (env.packetizerResult = .ok (some (.connack .connectionAccepted)) →
          MqttConnectionInProgress.complete env = .connected) ∧
       (∀ rc, rc ≠ .connectionAccepted →
          env.packetizerResult = .ok (some (.connack rc)) →
          MqttConnectionInProgress.complete env = .connectFailed rc))) ∧
    (readLoop env.readResults = .aborted →
      MqttConnectionInProgress.complete env = .ioError .connectionAborted) := by
  constructor
  · intro hLoop
    refine ⟨?_, ?_, ?_⟩
    · intro p hp hnc
      cases p with
      | connack rc => exact absurd rfl (hnc rc)
      | publish q => simp [MqttConnectionInProgress.complete, hTime, hTx, hLoop, hp]
      | puback pid => simp [MqttConnectionInProgress.complete, hTime, hTx, hLoop, hp]
      | suback pid rcs => simp [MqttConnectionInProgress.complete, hTime, hTx, hLoop, hp]
      | other => simp [MqttConnectionInProgress.complete, hTime, hTx, hLoop, hp]
    · intro hp
      simp [MqttConnectionInProgress.complete, hTime, hTx, hLoop, hp, processConnack]
    · intro rc hrc hp
      simp only [MqttConnectionInProgress.complete, hTime, hTx, hLoop, hp]
      cases rc with
      | connectionAccepted => exact absurd rfl hrc
      | unacceptableProtocolVersion => rfl
      | identifierRejected => rfl
      | serviceUnavailable => rfl
      | badUserNameOrPassword => rfl
      | notAuthorized => rfl
      | reserved code => rfl
  · intro hLoop
    simp [MqttConnectionInProgress.complete, hTime, hTx, hLoop]

/-- Witness for C7 at a concrete environment: not timed out, CONNECT already
drained, the read blocks, and the packetizer yields a PUBLISH-like
non-CONNACK packet: the poll fails with `ProtocolViolation`. -/
theorem claim_C7_awaiting_connack_outcomes_witness :
    MqttConnectionInProgress.complete
      { timedOut := false, txEmpty := true, sendOutcome := .ok ()
        readResults := [.error .wouldBlock]
        packetizerResult := .ok (some .other) } = .protocolViolation :=
  ((claim_C7_awaiting_connack_outcomes
      { timedOut := false, txEmpty := true, sendOutcome := .ok ()
        readResults := [.error .wouldBlock]
        packetizerResult := .ok (some .other) } rfl rfl).1 rfl).1 .other rfl
    (fun _ h => VariablePacket.noConfusion h)

/-- C5 counterexample: the claim says a `device_id` with non-alphanumeric
characters appears percent-encoded in the telemetry topic and the C2D
subscription filter. For `device_id = "a b"` the encoded telemetry topic is
`devices/a b/messages/events/`, not the percent-encoded
`devices/a%20b/messages/events/`, and the C2D filter likewise embeds
`a b` verbatim. -/
theorem claim_C5_counterexample :
    (IotCodec.encode_telemetry_message
      { client_id := .device "a b".toList, content := none
        packet_id := none, headers := none }).topic_name
      = "devices/a b/messages/events/".toList ∧
    utf8PercentEncode "a b".toList = "a%20b".toList ∧
    (IotCodec.encode_telemetry_message
      { client_id := .device "a b".toList, content := none
        packet_id := none, headers := none }).topic_name
      ≠ "devices/a%20b/messages/events/".toList ∧
    (IotCodec.encode_c2d_messages_subscription
      { packet_id := 1, device_id := "a b".toList, mode := .atLeastOnce }).filters
      = [("devices/a b/messages/devicebound/#".toList, .atLeastOnce)] := by
  refine ⟨rfl, rfl, ?_, rfl⟩
  decide

/-- C5 amended: `device_id` (and `module_id`) are embedded verbatim — not
percent-encoded — in the telemetry PUBLISH topic and in the C2D subscription
filter; percent-encoding with the non-alphanumeric set is applied only to
the telemetry header keys and values appended after `messages/events/`. -/
theorem claim_C5_amended (device_id module_id : List Char)
    (content : Option Json) (pid : Option Nat) (pkid : Nat)
    (mode : DeliveryGuarantees) (headers : List (List Char × List Char)) :
    (IotCodec.encode_telemetry_message
      { client_id := .device device_id, content := content
        packet_id := pid, headers := some headers }).topic_name
      = "devices/".toList ++ device_id ++ "/messages/events/".toList ++
          headerBag headers ∧
    (IotCodec.encode_telemetry_message
      { client_id := .module device_id module_id, content := content
        packet_id := pid, headers := some headers }).topic_name
      = "devices/".toList ++ device_id ++ "/modules/".toList ++ module_id ++
          "/messages/events/".toList ++ headerBag headers ∧
    (IotCodec.encode_c2d_messages_subscription
      { packet_id := pkid, device_id := device_id, mode := mode }).filters
      = [("devices/".toList ++ device_id ++ "/messages/devicebound/#".toList, mode)] ∧
    (∀ key value rest,
      headerBag ((key, value) :: rest)
        = utf8PercentEncode key ++ '=' :: utf8PercentEncode value ++
            (if rest = [] then [] else '&' :: headerBag rest)) := by
  refine ⟨?_, ?_, rfl, ?_⟩
  · simp [IotCodec.encode_telemetry_message]
  · simp [IotCodec.encode_telemetry_message]
  · intro key value rest
    cases rest with
    | nil => simp [headerBag]
    | cons r rs => simp [headerBag]

/-- C6: decoding a `$iothub/twin/res/` PUBLISH parses the status code from
topic byte positions `[17..20)`, fails with `MissingRid` when the `$rid`
query parameter is absent, parses the body as JSON only when the status code
is 200 (for any other code the body is `none`, whatever the payload), and
classifies 200 → OK, 204 → NoContent, 429 → TooManyRequests,
500..=599 → ServerError(code), anything else → UnknownStatusCode(code). -/
theorem claim_C6_twin_response_decoding (p : PublishPacket) :
    (hmGet (queryPairs (urlParseMqtt p.topic_name)) "$rid".toList = none →
        IotCodec.decode_twin_response p = .err .missingRid) ∧
    (∀ rid, hmGet (queryPairs (urlParseMqtt p.topic_name)) "$rid".toList = some rid →
        20 ≤ p.topic_name.length →
        rustParseU16 ((p.topic_name.drop 17).take 3) = none →
        IotCodec.decode_twin_response p = .err .missingStatusCode) ∧
    (∀ rid code version,
        hmGet (queryPairs (urlParseMqtt p.topic_name)) "$rid".toList = some rid →
        20 ≤ p.topic_name.length →
        rustParseU16 ((p.topic_name.drop 17).take 3) = some code →
        code ≠ 200 →
        IotCodec.extract_version
          (hmRemove (queryPairs (urlParseMqtt p.topic_name)) "$rid".toList)
          = .ok version →
        IotCodec.decode_twin_response p = .ok (.twinResponseMessage
          { packet_id := qosToPacketId p.qos
            request_id := rid
            status_code := IotCodec.get_status_code code
            body := none
            version := version })) ∧
    (∀ rid, hmGet (queryPairs (urlParseMqtt p.topic_name)) "$rid".toList = some rid →
        20 ≤ p.topic_name.length →
        rustParseU16 ((p.topic_name.drop 17).take 3) = some 200 →
        parseJson p.payload = none →
        IotCodec.decode_twin_response p = .err .invalidMessageBody) ∧
    (∀ rid body version,
        hmGet (queryPairs (urlParseMqtt p.topic_name)) "$rid".toList = some rid →
        20 ≤ p.topic_name.length →
        rustParseU16 ((p.topic_name.drop 17).take 3) = some 200 →
        deserializeBodyValue p.payload = .ok body →
        IotCodec.extract_version
          (hmRemove (queryPairs (urlParseMqtt p.topic_name)) "$rid".toList)
          = .ok version →
        IotCodec.decode_twin_response p = .ok (.twinResponseMessage
          { packet_id := qosToPacketId p.qos
            request_id := rid
            status_code := IotCodec.get_status_code 200
            body := body
            version := version })) ∧
    (IotCodec.get_status_code 200 = .ok ∧
     IotCodec.get_status_code 204 = .noContent ∧
     IotCodec.get_status_code 429 = .tooManyRequests ∧
     (∀ c, 500 ≤ c → c ≤ 599 → IotCodec.get_status_code c = .serverError c) ∧
     (∀ c, c ≠ 200 → c ≠ 204 → c ≠ 429 → ¬(500 ≤ c ∧ c ≤ 599) →
        IotCodec.get_status_code c = .unknownStatusCode c)) := by
  refine ⟨?_, ?_, ?_, ?_, ?_, rfl, rfl, rfl, ?_, ?_⟩
  · intro hrid
    simp only [IotCodec.decode_twin_response, hrid]
  · intro rid hrid hlen hparse
    simp only [IotCodec.decode_twin_response, hrid]
    rw [if_pos hlen]
    simp only [hparse]
  · intro rid code version hrid hlen hparse hcode hver
    simp only [IotCodec.decode_twin_response, hrid]
    rw [if_pos hlen]
    simp only [hparse]
    rw [if_neg hcode]
    simp only [hver]
  · intro rid hrid hlen hparse hbody
    simp only [IotCodec.decode_twin_response, hrid]
    rw [if_pos hlen]
    simp only [hparse, if_true]
    simp only [deserializeBodyValue, hbody]
  · intro rid body version hrid hlen hparse hbody hver
    simp only [IotCodec.decode_twin_response, hrid]
    rw [if_pos hlen]
    simp only [hparse, if_true]
    simp only [hbody, hver]
  · intro c h5 h9
    simp only [IotCodec.get_status_code]
    split_ifs with h1 h2 h3 h4
    · exact absurd h1 (by omega)
    · exact absurd h2 (by omega)
    · exact absurd h3 (by omega)
    · rfl
    · exact absurd (by omega : 500 ≤ c ∧ c ≤ 599) h4
  · intro c h200 h204 h429 hsrv
    simp only [IotCodec.get_status_code]
    rw [if_neg h429, if_neg h200, if_neg h204, if_neg hsrv]

/-- Witness for C6 at a concrete packet: topic
`$iothub/twin/res/204/?$rid=r7` with a non-JSON payload decodes to a
`NoContent` twin response whose body is `none` (the payload is never
parsed since the status is not 200). -/
theorem claim_C6_twin_response_decoding_witness :
    IotCodec.decode_twin_response
      { topic_name := "$iothub/twin/res/204/?$rid=r7".toList
        qos := .level0
        payload := "not json".toList }
      = .ok (.twinResponseMessage
          { packet_id := none
            request_id := "r7".toList
            status_code := IotCodec.get_status_code 204
            body := none
            version := none }) :=
  ((claim_C6_twin_response_decoding
      { topic_name := "$iothub/twin/res/204/?$rid=r7".toList
        qos := .level0
        payload := "not json".toList }).2.2.1) "r7".toList 204 none rfl
    (by decide) rfl (by decide) rfl

/-- C10: for a C2D or direct-method-invocation PUBLISH, a payload that is
not valid JSON — the empty payload included — makes decoding fail with
`InvalidMessageBody` and produce no message, even when the topic parses
(for the method invocation, when `$rid` is present); a message is produced
only from a payload that is valid JSON, and the JSON literal `null` decodes
to an absent body. -/
theorem claim_C10_body_json_required (p : PublishPacket) :
    (parseJson p.payload = none →
        IotCodec.decode_c2d_message p = .err .invalidMessageBody) ∧
    (∀ rid, hmGet (queryPairs (urlParseMqtt p.topic_name)) "$rid".toList = some rid →
        parseJson p.payload = none →
        IotCodec.decode_direct_method_invocation p = .err .invalidMessageBody) ∧
    parseJson ([] : List Char) = none ∧
    (∀ m, IotCodec.decode_c2d_message p = .ok m → parseJson p.payload ≠ none) ∧
    (∀ m, IotCodec.decode_direct_method_invocation p = .ok m →
        parseJson p.payload ≠ none) ∧
    (parseJson p.payload = some .null →
        ∀ m, IotCodec.decode_c2d_message p = .ok (.cloudToDeviceMessage m) →
          m.body = none) ∧
    (parseJson p.payload = some .null →
        ∀ m, IotCodec.decode_direct_method_invocation p
            = .ok (.directMethodInvocation m) →
          m.body = none) := by
  refine ⟨?_, ?_, rfl, ?_, ?_, ?_, ?_⟩
  · intro hparse
    simp only [IotCodec.decode_c2d_message, deserializeBodyString, hparse]
  · intro rid hrid hparse
    simp only [IotCodec.decode_direct_method_invocation, hrid,
      deserializeBodyValue, hparse]
  · intro m hm hparse
    simp only [IotCodec.decode_c2d_message, deserializeBodyString, hparse] at hm
    exact DecodeOutcome.noConfusion hm
  · intro m hm hparse
    simp only [IotCodec.decode_direct_method_invocation,
      deserializeBodyValue, hparse] at hm
    rcases hrid : hmGet (queryPairs (urlParseMqtt p.topic_name)) "$rid".toList with
      _ | rid
    · rw [hrid] at hm
      simp at hm
    · rw [hrid] at hm
      simp at hm
  · intro hparse m hm
    simp only [IotCodec.decode_c2d_message, deserializeBodyString, hparse] at hm
    rcases hsp : splitOnChar '/' p.topic_name with _ | ⟨s0, rest⟩
    · rw [hsp] at hm
      simp at hm
    · rw [hsp] at hm
      rcases rest with _ | ⟨dev, rest2⟩
      · simp at hm
      · simp only [DecodeOutcome.ok.injEq, MsgFromHub.cloudToDeviceMessage.injEq] at hm
        rw [← hm]
  · intro hparse m hm
    simp only [IotCodec.decode_direct_method_invocation,
      deserializeBodyValue, hparse] at hm
    rcases hrid : hmGet (queryPairs (urlParseMqtt p.topic_name)) "$rid".toList with
      _ | rid
    · rw [hrid] at hm
      simp at hm
    · rw [hrid] at hm
      rcases hseg : (urlParseMqtt p.topic_name).path_segments with _ | segs
      · rw [hseg] at hm
        simp at hm
      · rw [hseg] at hm
        rcases segs with _ | ⟨a, _ | ⟨b, _ | ⟨name, rest⟩⟩⟩
        · simp at hm
        · simp at hm
        · simp at hm
        · simp only [DecodeOutcome.ok.injEq,
            MsgFromHub.directMethodInvocation.injEq] at hm
          rw [← hm]

/-- Witness for C10 at concrete packets: a C2D PUBLISH with an empty
payload decodes to `InvalidMessageBody`. -/
theorem claim_C10_body_json_required_witness :
    IotCodec.decode_c2d_message
      { topic_name := "devices/dev1/messages/devicebound".toList
        qos := .level0
        payload := [] } = .err .invalidMessageBody :=
  (claim_C10_body_json_required
    { topic_name := "devices/dev1/messages/devicebound".toList
      qos := .level0
      payload := [] }).1 rfl

/-- Percent-decoding never lengthens its input. -/
theorem percentDecode_length_le (s : List Char) :
    (percentDecode s).length ≤ s.length := by
  induction s using percentDecode.induct with
  | case1 => simp [percentDecode]
  | case2 h1 h2 rest v1 v2 hv1 hv2 ih =>
    simp [percentDecode, hv1, hv2]
    omega
  | case3 h1 h2 rest h ih =>
    simp only [percentDecode]
    rcases hv1 : hexDigitValue h1 with _ | v1
    · rcases hv2 : hexDigitValue h2 with _ | v2 <;>
        · simp only [List.length_cons] at ih ⊢
          omega
    · rcases hv2 : hexDigitValue h2 with _ | v2
      · simp only [List.length_cons] at ih ⊢
        omega
      · exact (h v1 v2 hv1 hv2).elim
  | case4 c rest h ih =>
    by_cases hc : c = '%'
    · subst hc
      rcases rest with _ | ⟨a, _ | ⟨b, r⟩⟩
      · simp [percentDecode]
      · simp [percentDecode]
      · exact (h a b r rfl rfl).elim
    · rcases rest with _ | ⟨a, _ | ⟨b, r⟩⟩ <;>
        simp only [percentDecode, List.length_cons] at ih ⊢ <;> omega

/-- Decoding a form-urlencoded component never lengthens it. -/
theorem decodePlusPercent_length_le (s : List Char) :
    (decodePlusPercent s).length ≤ s.length := by
  calc (decodePlusPercent s).length
      ≤ (s.map fun c => if c = '+' then ' ' else c).length :=
        percentDecode_length_le _
    _ = s.length := by simp

/-- The part before the first separator is no longer than the input. -/
theorem splitAtFirst_fst_length_le (sep : Char) (s : List Char) :
    (splitAtFirst sep s).1.length ≤ s.length := by
  induction s with
  | nil => simp [splitAtFirst]
  | cons c cs ih =>
    simp only [splitAtFirst]
    by_cases hc : c = sep
    · simp [hc]
    · simp only [if_neg hc, List.length_cons]
      omega

/-- The part after the first separator is strictly shorter than the input. -/
theorem splitAtFirst_snd_length_lt (sep : Char) (s t : List Char)
    (h : (splitAtFirst sep s).2 = some t) : t.length < s.length := by
  induction s generalizing t with
  | nil => simp [splitAtFirst] at h
  | cons c cs ih =>
    simp only [splitAtFirst] at h
    by_cases hc : c = sep
    · rw [if_pos hc] at h
      simp only at h
      cases h
      simp
    · rw [if_neg hc] at h
      simp only at h
      have := ih t h
      simp only [List.length_cons]
      omega

/-- Splitting after a separator-free prefix splits in the suffix. -/
theorem splitAtFirst_snd_append (sep : Char) (pre s : List Char) (h : sep ∉ pre) :
    (splitAtFirst sep (pre ++ s)).2 = (splitAtFirst sep s).2 := by
  induction pre with
  | nil => rfl
  | cons c cs ih =>
    have hc : ¬ c = sep := fun e => h (by simp [e])
    simp only [List.cons_append, splitAtFirst, if_neg hc]
    exact ih fun hm => h (List.mem_cons_of_mem _ hm)

/-- Every piece produced by `splitOnChar` is no longer than the input. -/
theorem mem_splitOnChar_length_le (sep : Char) (s piece : List Char)
    (h : piece ∈ splitOnChar sep s) : piece.length ≤ s.length := by
  induction s generalizing piece with
  | nil =>
    simp only [splitOnChar, List.mem_singleton] at h
    simp [h]
  | cons c cs ih =>
    simp only [splitOnChar] at h
    by_cases hc : c = sep
    · rw [if_pos hc] at h
      rcases List.mem_cons.mp h with h1 | h2
      · simp [h1]
      · have := ih piece h2
        simp only [List.length_cons]
        omega
    · rw [if_neg hc] at h
      rcases hr : splitOnChar sep cs with _ | ⟨g, gs⟩
      · rw [hr] at h
        simp only [List.mem_singleton] at h
        simp [h]
      · rw [hr] at h
        rcases List.mem_cons.mp h with h1 | h2
        · have hg : g ∈ splitOnChar sep cs := by
            rw [hr]; exact List.mem_cons_self g gs
          have := ih g hg
          simp [h1]
          omega
        · have hp : piece ∈ splitOnChar sep cs := by
            rw [hr]; exact List.mem_cons_of_mem g h2
          have := ih piece hp
          simp only [List.length_cons]
          omega

/-- Every key produced by `form_urlencoded` parsing is no longer than the
parsed query. -/
theorem formUrlencodedParse_key_length_le (s : List Char)
    (kv : List Char × List Char) (h : kv ∈ formUrlencodedParse s) :
    kv.1.length ≤ s.length := by
  obtain ⟨piece, hmem, heq⟩ := List.mem_filterMap.mp h
  by_cases hp : piece = []
  · rw [if_pos hp] at heq
    exact Option.noConfusion heq
  · rw [if_neg hp] at heq
    have hkv := Option.some.inj heq
    have h1 : kv.1 = decodePlusPercent (splitAtFirst '=' piece).1 := by
      rw [← hkv]
    rw [h1]
    calc (decodePlusPercent (splitAtFirst '=' piece).1).length
        ≤ (splitAtFirst '=' piece).1.length := decodePlusPercent_length_le _
      _ ≤ piece.length := splitAtFirst_fst_length_le _ _
      _ ≤ s.length := mem_splitOnChar_length_le _ _ _ hmem

/-- Lookup misses when no pair carries the key. -/
theorem hmGet_eq_none (pairs : List (List Char × List Char)) (key : List Char)
    (h : ∀ kv ∈ pairs, ¬ kv.1 = key) : hmGet pairs key = none := by
  unfold hmGet
  rw [List.filter_eq_nil_iff.mpr (by simpa using h)]
  rfl

/-- C9 counterexample: the claim says decoding a twin-response PUBLISH whose
topic is shorter than 20 bytes — such as exactly `$iothub/twin/res/` —
panics on the `[17..20)` byte slice. On the code the `$rid` lookup runs
first and such a topic carries no query, so decoding returns the
`MissingRid` codec error and does not panic. -/
theorem claim_C9_counterexample :
    IotCodec.decode_twin_response
      { topic_name := "$iothub/twin/res/".toList, qos := .level0, payload := [] }
      = .err .missingRid ∧
    ¬ IotCodec.decode_twin_response
        { topic_name := "$iothub/twin/res/".toList, qos := .level0, payload := [] }
      = .panicked :=
  ⟨rfl, fun h =>
    DecodeOutcome.noConfusion
      (h : DecodeOutcome.err CodecError.missingRid = DecodeOutcome.panicked)⟩

/-- C9 amended: for every inbound PUBLISH whose topic starts with
`$iothub/twin/res/` but is shorter than 20 bytes, decoding returns the
codec error `MissingRid` (it does not panic): the `$rid` check precedes the
`[17..20)` slice, and a topic that short cannot carry a `$rid` query
parameter. -/
theorem claim_C9_amended (p : PublishPacket)
    (hpre : beginsWith "$iothub/twin/res/".toList p.topic_name = true)
    (hshort : p.topic_name.length < 20) :
    IotCodec.decode_twin_response p = .err .missingRid := by
  obtain ⟨rest, hrest⟩ := List.isPrefixOf_iff_prefix.mp hpre
  have hrestlen : rest.length < 3 := by
    have hl := congrArg List.length hrest
    simp only [List.length_append] at hl
    rw [show ("$iothub/twin/res/".toList).length = 17 from rfl] at hl
    omega
  have hnomem : '?' ∉ "$iothub/twin/res/".toList := by decide
  have hsplit : (splitAtFirst '?' p.topic_name).2 = (splitAtFirst '?' rest).2 := by
    rw [← hrest]
    exact splitAtFirst_snd_append '?' _ rest hnomem
  have hquery : (urlParseMqtt p.topic_name).query = (splitAtFirst '?' rest).2 := by
    simp only [urlParseMqtt]
    exact hsplit
  have hq : hmGet (queryPairs (urlParseMqtt p.topic_name)) "$rid".toList = none := by
    rcases ht : (splitAtFirst '?' rest).2 with _ | t
    · have : queryPairs (urlParseMqtt p.topic_name) = [] := by
        simp [queryPairs, hquery, ht, formUrlencodedParse, splitOnChar]
      rw [this]
      rfl
    · have htlen : t.length < 3 := by
        have := splitAtFirst_snd_length_lt '?' rest t ht
        omega
      have hpairs : queryPairs (urlParseMqtt p.topic_name) = formUrlencodedParse t := by
        simp [queryPairs, hquery, ht]
      rw [hpairs]
      apply hmGet_eq_none
      intro kv hkv hbad
      have := formUrlencodedParse_key_length_le t kv hkv
      rw [hbad] at this
      simp only [show ("$rid".toList).length = 4 from rfl] at this
      omega
  simp only [IotCodec.decode_twin_response, hq]

/-- Witness for the amended C9 at a concrete topic: the 19-byte topic
`$iothub/twin/res/ab` decodes to `MissingRid`. -/
theorem claim_C9_amended_witness :
    IotCodec.decode_twin_response
      { topic_name := "$iothub/twin/res/ab".toList, qos := .level0, payload := [] }
      = .err .missingRid :=
  claim_C9_amended
    { topic_name := "$iothub/twin/res/ab".toList, qos := .level0, payload := [] }
    (by decide) (by decide)

/-- Under well-formedness the buffered amount never exceeds the capacity. -/
theorem CircularBuffer.vl_le_size (b : CircularBuffer) (hwf : b.WF) :
    b.valid_length ≤ b.size := by
  obtain ⟨hn, hr, hw, hf⟩ := hwf
  simp only [CircularBuffer.valid_length, CircularBuffer.is_full, CircularBuffer.is_empty]
  split_ifs <;> omega

/-- The write index is the read index advanced by the buffered amount. -/
theorem CircularBuffer.write_eq (b : CircularBuffer) (hwf : b.WF) :
    b.write = (b.read + b.valid_length) % b.size := by
  obtain ⟨hn, hr, hw, hf⟩ := hwf
  by_cases hfull : b.full
  · simp only [CircularBuffer.valid_length, CircularBuffer.is_full, hfull, if_true]
    rw [Nat.add_mod_right, Nat.mod_eq_of_lt hr, hf hfull]
  · by_cases he : b.read = b.write
    · simp [CircularBuffer.valid_length, CircularBuffer.is_full, CircularBuffer.is_empty,
        hfull, he, Nat.mod_eq_of_lt hw]
    · simp only [CircularBuffer.valid_length, CircularBuffer.is_full, CircularBuffer.is_empty,
        hfull, he, Bool.and_eq_true, beq_iff_eq, if_false, Bool.false_eq_true, false_and,
        if_neg, not_false_eq_true]
      by_cases hge : b.write ≥ b.read
      · rw [if_pos hge, show b.read + (b.write - b.read) = b.write from by omega,
          Nat.mod_eq_of_lt hw]
      · rw [if_neg hge,
          show b.read + (b.size + b.write - b.read) = b.size + b.write from by omega,
          Nat.add_mod_left, Nat.mod_eq_of_lt hw]

/-- Available space is the capacity minus the buffered amount. -/
theorem CircularBuffer.avail_eq (b : CircularBuffer) (hwf : b.WF) :
    b.available_space = b.size - b.valid_length := by
  obtain ⟨hn, hr, hw, hf⟩ := hwf
  by_cases hfull : b.full
  · simp [CircularBuffer.valid_length, CircularBuffer.available_space,
      CircularBuffer.is_full, CircularBuffer.is_empty, hfull, hf hfull]
  · by_cases he : b.read = b.write
    · simp [CircularBuffer.valid_length, CircularBuffer.available_space,
        CircularBuffer.is_full, CircularBuffer.is_empty, hfull, he]
    · simp only [CircularBuffer.valid_length, CircularBuffer.available_space,
        CircularBuffer.is_full, CircularBuffer.is_empty, hfull, he, Bool.and_eq_true,
        beq_iff_eq, Bool.false_eq_true, false_and, if_false]
      split_ifs <;> omega


/-- A slice taken at `start` of length `L` reads, in order, the bytes at
positions `(start + i) % size`. -/
theorem CircularBuffer.get_buffer_slice_toList (b : CircularBuffer) (start L : Nat)
    (hn : 0 < b.size) (hs : start < b.size) (hL : L ≤ b.size) :
    (b.get_buffer_slice start L).toList
      = List.ofFn fun i : Fin L => b.buffer ((start + ↑i) % b.size) := by
  simp only [CircularBuffer.get_buffer_slice]
  by_cases h : start + L ≤ b.size
  · rw [if_pos h]
    simp only [BufferSlice.toList]
    apply List.ext_getElem
    · simp
    · intro i h1 h2
      simp only [List.getElem_ofFn]
      congr 1
      rw [Nat.mod_eq_of_lt (by simp at h1; omega)]
  · rw [if_neg h]
    simp only [BufferSlice.toList]
    have hmod : (start + L) % b.size = start + L - b.size := by
      rw [Nat.mod_eq_sub_mod (by omega), Nat.mod_eq_of_lt (by omega)]
    apply List.ext_getElem
    · simp [hmod]
      omega
    · intro i h1 h2
      simp only [List.length_ofFn] at h2
      by_cases hi : i < b.size - start
      · rw [List.getElem_append_left (by simp; omega)]
        simp only [List.getElem_ofFn]
        congr 1
        rw [Nat.mod_eq_of_lt (by omega)]
      · rw [List.getElem_append_right (by simp; omega)]
        simp only [List.getElem_ofFn, List.length_ofFn]
        congr 1
        rw [Nat.mod_eq_sub_mod (by omega), Nat.mod_eq_of_lt (by omega)]
        omega


/-- Buffered amount after `read_bytes` advances the read index. -/
theorem CircularBuffer.valid_length_read (b : CircularBuffer) (L : Nat) (hwf : b.WF)
    (h0 : 0 < L) (hL : L ≤ b.valid_length) :
    ({ b with read := (b.read + L) % b.size, full := false } : CircularBuffer).valid_length
      = b.valid_length - L := by
  obtain ⟨hn, hr, hw, hf⟩ := hwf
  have hv := b.vl_le_size ⟨hn, hr, hw, hf⟩
  have hweq := b.write_eq ⟨hn, hr, hw, hf⟩
  set v := b.valid_length with hvdef
  have e1 : (b.read + L) % b.size
      = if b.read + L < b.size then b.read + L else b.read + L - b.size := by
    by_cases hc : b.read + L < b.size
    · rw [if_pos hc, Nat.mod_eq_of_lt hc]
    · rw [if_neg hc, Nat.mod_eq_sub_mod (by omega), Nat.mod_eq_of_lt (by omega)]
  have e2 : b.write = if b.read + v < b.size then b.read + v else b.read + v - b.size := by
    rw [hweq]
    by_cases hc : b.read + v < b.size
    · rw [if_pos hc, Nat.mod_eq_of_lt hc]
    · rw [if_neg hc, Nat.mod_eq_sub_mod (by omega), Nat.mod_eq_of_lt (by omega)]
  simp only [CircularBuffer.valid_length, CircularBuffer.is_full, CircularBuffer.is_empty,
    Bool.not_false, Bool.and_true, Bool.false_eq_true, if_false, beq_iff_eq]
  split_ifs at e1 e2 ⊢ <;> omega

/-- `read_bytes` on a well-formed buffer returns the first `L` buffered
bytes and leaves the rest buffered. -/
theorem CircularBuffer.read_bytes_spec (b : CircularBuffer) (L : Nat) (hwf : b.WF)
    (h0 : 0 < L) (hL : L ≤ b.valid_length) :
    ∃ sl b', b.read_bytes L = some (sl, b') ∧
      sl.toList = b.contents.take L ∧
      b'.contents = b.contents.drop L ∧ b'.WF ∧ b'.size = b.size ∧
      b'.valid_length = b.valid_length - L := by
  obtain ⟨hn, hr, hw, hf⟩ := hwf
  have hv := b.vl_le_size ⟨hn, hr, hw, hf⟩
  have hbr : b.read_bytes L = some (b.get_buffer_slice b.read L,
      { b with read := (b.read + L) % b.size, full := false }) := by
    simp only [CircularBuffer.read_bytes]
    rw [if_neg (by omega), if_neg (by omega)]
  have hvl' := b.valid_length_read L ⟨hn, hr, hw, hf⟩ h0 hL
  refine ⟨_, _, hbr, ?_, ?_, ⟨hn, Nat.mod_lt _ hn, hw, by simp⟩, rfl, hvl'⟩
  · rw [b.get_buffer_slice_toList b.read L hn hr (by omega)]
    apply List.ext_getElem
    · simp [CircularBuffer.contents]
      omega
    · intro i h1 h2
      simp only [List.getElem_ofFn, List.getElem_take, CircularBuffer.contents]
  · apply List.ext_getElem
    · simp [CircularBuffer.contents, hvl']
    · intro i h1 h2
      simp only [CircularBuffer.contents, List.getElem_ofFn, List.getElem_drop]
      have hidx : b.read + L + i = b.read + (L + i) := by omega
      rw [Nat.mod_add_mod, hidx]


/-- Buffered amount after `append_all_bytes` advances the write index. -/
theorem CircularBuffer.valid_length_append (b : CircularBuffer) (len : Nat)
    (buf' : Nat → Nat) (hwf : b.WF) (hfit : b.valid_length + len ≤ b.size) :
    ({ b with
        buffer := buf'
        write := (b.write + len) % b.size
        full := if len = b.available_space then true else b.full } : CircularBuffer).valid_length
      = b.valid_length + len := by
  obtain ⟨hn, hr, hw, hf⟩ := hwf
  have hv := b.vl_le_size ⟨hn, hr, hw, hf⟩
  have ha := b.avail_eq ⟨hn, hr, hw, hf⟩
  have hweq := b.write_eq ⟨hn, hr, hw, hf⟩
  have hvfull : b.full = true → b.valid_length = b.size := by
    intro hfull
    simp [CircularBuffer.valid_length, CircularBuffer.is_full, hfull]
  set v := b.valid_length with hvdef
  have e2 : b.write = if b.read + v < b.size then b.read + v else b.read + v - b.size := by
    rw [hweq]
    by_cases hc : b.read + v < b.size
    · rw [if_pos hc, Nat.mod_eq_of_lt hc]
    · rw [if_neg hc, Nat.mod_eq_sub_mod (by omega), Nat.mod_eq_of_lt (by omega)]
  have e3 : (b.write + len) % b.size
      = if b.write + len < b.size then b.write + len else b.write + len - b.size := by
    by_cases hc : b.write + len < b.size
    · rw [if_pos hc, Nat.mod_eq_of_lt hc]
    · rw [if_neg hc, Nat.mod_eq_sub_mod (by omega), Nat.mod_eq_of_lt (by omega)]
  simp only [CircularBuffer.valid_length, CircularBuffer.is_full, CircularBuffer.is_empty,
    ha, Bool.and_eq_true, beq_iff_eq, Bool.not_eq_eq_eq_not, Bool.not_true]
  by_cases hwill : len = b.size - v
  · rw [if_pos hwill]
    simp only [if_true]
    have hfull' : v + len = b.size := by
      rcases Nat.eq_zero_or_pos len with h0 | h0
      · subst h0
        have : v = b.size := by omega
        omega
      · omega
    omega
  · rw [if_neg hwill]
    by_cases hfull : b.full
    · exact absurd (by have := hvfull hfull; omega) hwill
    · simp only [hfull, Bool.false_eq_true, if_false, Bool.not_false, Bool.and_true]
      split_ifs at e2 e3 ⊢ <;> omega


/-- `getD` through `take`, below the cut. -/
theorem getD_take_of_lt (l : List Nat) (k j d : Nat) (h : j < k) :
    (l.take k).getD j d = l.getD j d := by
  simp [List.getD_eq_getElem?_getD, List.getElem?_take, h]

/-- `getD` through `drop`. -/
theorem getD_drop_add (l : List Nat) (k j d : Nat) :
    (l.drop k).getD j d = l.getD (k + j) d := by
  simp [List.getD_eq_getElem?_getD, List.getElem?_drop]

/-- Elements of the buffered queue, read off the backing storage. -/
theorem CircularBuffer.contents_getElem (b : CircularBuffer) (i : Nat)
    (h : i < b.contents.length) :
    b.contents[i] = b.buffer ((b.read + i) % b.size) := by
  simp [CircularBuffer.contents]

/-- The buffered queue after the one- or two-range copy of
`append_all_bytes` is the old queue followed by the new bytes. Stated for
any buffer `b2` whose fields are the ones `append_all_bytes` constructs. -/
theorem CircularBuffer.append_contents_aux (b b2 : CircularBuffer) (bytes : List Nat)
    (hwf : b.WF) (hfit : b.valid_length + bytes.length ≤ b.size)
    (hsize : b2.size = b.size) (hread : b2.read = b.read)
    (hbuf : b2.buffer
      = if b.write + bytes.length ≤ b.size then writeRange b.buffer b.write bytes
        else writeRange (writeRange b.buffer b.write (bytes.take (b.size - b.write))) 0
          (bytes.drop (b.size - b.write)))
    (hvl : b2.valid_length = b.valid_length + bytes.length) :
    b2.contents = b.contents ++ bytes := by
  obtain ⟨hn, hr, hw, hf⟩ := hwf
  have hv := b.vl_le_size ⟨hn, hr, hw, hf⟩
  have hcl : b.contents.length = b.valid_length := by
    simp [CircularBuffer.contents]
  have hcl2 : b2.contents.length = b.valid_length + bytes.length := by
    simp [CircularBuffer.contents, hvl]
  have e2 : b.write = if b.read + b.valid_length < b.size then b.read + b.valid_length
      else b.read + b.valid_length - b.size := by
    rw [b.write_eq ⟨hn, hr, hw, hf⟩]
    by_cases hc : b.read + b.valid_length < b.size
    · rw [if_pos hc, Nat.mod_eq_of_lt hc]
    · rw [if_neg hc, Nat.mod_eq_sub_mod (by omega), Nat.mod_eq_of_lt (by omega)]
  apply List.ext_getElem
  · rw [hcl2]
    simp [hcl]
  · intro i h1 h2
    rw [CircularBuffer.contents_getElem b2 i h1, hbuf, hread, hsize]
    have hi2 : i < b.valid_length + bytes.length := by rw [← hcl2]; exact h1
    have ep : (b.read + i) % b.size
        = if b.read + i < b.size then b.read + i else b.read + i - b.size := by
      by_cases hc : b.read + i < b.size
      · rw [if_pos hc, Nat.mod_eq_of_lt hc]
      · rw [if_neg hc, Nat.mod_eq_sub_mod (by omega), Nat.mod_eq_of_lt (by omega)]
    by_cases hi : i < b.valid_length
    · rw [List.getElem_append_left (by rw [hcl]; exact hi)]
      rw [CircularBuffer.contents_getElem b i (by rw [hcl]; exact hi)]
      by_cases hAB : b.write + bytes.length ≤ b.size
      · rw [if_pos hAB]
        simp only [writeRange]
        rw [if_neg (by split_ifs at ep e2 <;> omega)]
      · rw [if_neg hAB]
        simp only [writeRange, List.length_drop, List.length_take]
        rw [if_neg (by split_ifs at ep e2 <;> omega),
          if_neg (by split_ifs at ep e2 <;> omega)]
    · rw [List.getElem_append_right (by rw [hcl]; omega)]
      rw [← List.getD_eq_getElem bytes 0 (by rw [hcl]; omega)]
      rw [show i - b.contents.length = i - b.valid_length from by rw [hcl]]
      by_cases hAB : b.write + bytes.length ≤ b.size
      · rw [if_pos hAB]
        simp only [writeRange]
        rw [if_pos (by constructor <;> (split_ifs at ep e2 <;> omega))]
        rw [show (b.read + i) % b.size - b.write = i - b.valid_length from by
          split_ifs at ep e2 <;> omega]
      · rw [if_neg hAB]
        simp only [writeRange, List.length_drop, List.length_take]
        by_cases hreg : (b.read + i) % b.size < bytes.length - (b.size - b.write)
        · rw [if_pos (by constructor <;> (split_ifs at ep e2 <;> omega))]
          rw [getD_drop_add, Nat.sub_zero]
          rw [show b.size - b.write + (b.read + i) % b.size = i - b.valid_length from by
            split_ifs at ep e2 <;> omega]
        · rw [if_neg (by intro hcon; exact hreg (by omega))]
          rw [if_pos (by constructor <;> (split_ifs at ep e2 <;> omega))]
          rw [getD_take_of_lt _ _ _ _ (by split_ifs at ep e2 <;> omega)]
          rw [show (b.read + i) % b.size - b.write = i - b.valid_length from by
            split_ifs at ep e2 <;> omega]

/-- `append_all_bytes` on a well-formed buffer with room for the bytes
succeeds and appends them to the buffered queue. -/
theorem CircularBuffer.append_all_bytes_spec (b : CircularBuffer) (bytes : List Nat)
    (hwf : b.WF) (hfit : b.valid_length + bytes.length ≤ b.size) :
    ∃ b', b.append_all_bytes bytes = .ok b' ∧ b'.WF ∧ b'.size = b.size ∧
      b'.contents = b.contents ++ bytes ∧
      b'.valid_length = b.valid_length + bytes.length := by
  obtain ⟨hn, hr, hw, hf⟩ := hwf
  have hv := b.vl_le_size ⟨hn, hr, hw, hf⟩
  have ha := b.avail_eq ⟨hn, hr, hw, hf⟩
  have hweq := b.write_eq ⟨hn, hr, hw, hf⟩
  have hvfull : b.full = true → b.valid_length = b.size := by
    intro hfull
    simp [CircularBuffer.valid_length, CircularBuffer.is_full, hfull]
  have hok : b.append_all_bytes bytes = .ok { b with
      buffer :=
        if b.write + bytes.length ≤ b.size then writeRange b.buffer b.write bytes
        else writeRange (writeRange b.buffer b.write (bytes.take (b.size - b.write))) 0
          (bytes.drop (b.size - b.write))
      write := (b.write + bytes.length) % b.size
      full := if bytes.length = b.available_space then true else b.full } := by
    simp only [CircularBuffer.append_all_bytes]
    rw [if_neg (by omega)]
  have hvl' := b.valid_length_append bytes.length
    (if b.write + bytes.length ≤ b.size then writeRange b.buffer b.write bytes
     else writeRange (writeRange b.buffer b.write (bytes.take (b.size - b.write))) 0
       (bytes.drop (b.size - b.write))) ⟨hn, hr, hw, hf⟩ hfit
  refine ⟨_, hok, ⟨hn, hr, Nat.mod_lt _ hn, ?_⟩, rfl, ?_, hvl'⟩
  · intro hfull'
    simp only at hfull'
    by_cases hwill : bytes.length = b.available_space
    · have hlen : bytes.length = b.size - b.valid_length := by omega
      have hwr : (b.write + bytes.length) % b.size = b.read := by
        rw [hweq, Nat.mod_add_mod]
        rw [show b.read + b.valid_length + bytes.length = b.read + b.size from by omega]
        rw [Nat.add_mod_right]
        exact Nat.mod_eq_of_lt hr
      exact hwr.symm
    · rw [if_neg hwill] at hfull'
      have hvn := hvfull hfull'
      exact absurd (by omega) hwill
  · exact CircularBuffer.append_contents_aux b _ bytes ⟨hn, hr, hw, hf⟩ hfit rfl rfl rfl hvl'


/-- Running a sequence of in-budget operations from a well-formed buffer
succeeds, and the bytes the reads return, followed by what is still
buffered, are the initial queue followed by everything appended. -/
theorem runOps_spec (ops : List BufOp) (b : CircularBuffer) (hwf : b.WF)
    (hok : opsOk b.size b.valid_length ops = true) :
    ∃ outs b', runOps b ops = some (outs, b') ∧ b'.WF ∧ b'.size = b.size ∧
      outs ++ b'.contents = b.contents ++ appendedBytes ops := by
  induction ops generalizing b with
  | nil => exact ⟨[], b, rfl, hwf, rfl, by simp [appendedBytes]⟩
  | cons op ops ih =>
    cases op with
    | append bytes =>
      simp only [opsOk, Bool.and_eq_true, decide_eq_true_eq] at hok
      obtain ⟨hfit, hrest⟩ := hok
      obtain ⟨b1, hap, hwf1, hsz1, hc1, hvl1⟩ :=
        b.append_all_bytes_spec bytes hwf (by omega)
      obtain ⟨outs, b', hrun, hwf', hsz', hcat⟩ := ih b1 hwf1 (by rw [hsz1, hvl1]; exact hrest)
      refine ⟨outs, b', ?_, hwf', by rw [hsz', hsz1], ?_⟩
      · simp only [runOps, hap]
        exact hrun
      · rw [hcat, hc1]
        simp [appendedBytes]
    | read len =>
      simp only [opsOk, Bool.and_eq_true, decide_eq_true_eq] at hok
      obtain ⟨⟨h0, hlen⟩, hrest⟩ := hok
      obtain ⟨sl, b1, hrd, hsl, hc1, hwf1, hsz1, hvl1⟩ :=
        b.read_bytes_spec len hwf h0 hlen
      obtain ⟨outs, b', hrun, hwf', hsz', hcat⟩ := ih b1 hwf1 (by rw [hsz1, hvl1]; exact hrest)
      refine ⟨sl.toList ++ outs, b', ?_, hwf', by rw [hsz', hsz1], ?_⟩
      · simp only [runOps, hrd, hrun]
      · rw [List.append_assoc, hcat, hc1, hsl, ← List.append_assoc,
          List.take_append_drop]
        simp [appendedBytes]

/-- C1: for every sequence of `append_all_bytes` and `read_bytes` operations
in which the buffered amount never exceeds the capacity (every append fits
and every read takes a positive amount of the bytes then buffered), running
the sequence from a fresh buffer succeeds, the concatenation of the byte
sequences returned by the reads followed by the bytes still buffered equals
the concatenation of the byte sequences appended, in order — and when the
buffer ends empty the reads equal the appends exactly. Wraparound needs no
side condition: the law holds for every such sequence. -/
theorem claim_C1_ring_fifo (cap : Nat) (ops : List BufOp) (hcap : 0 < cap)
    (hok : opsOk cap 0 ops = true) :
    ∃ outs b', runOps (CircularBuffer.new cap) ops = some (outs, b') ∧
      outs ++ b'.contents = appendedBytes ops ∧
      (b'.valid_length = 0 → outs = appendedBytes ops) := by
  have hwf : (CircularBuffer.new cap).WF :=
    ⟨hcap, hcap, hcap, by simp [CircularBuffer.new]⟩
  have hvl0 : (CircularBuffer.new cap).valid_length = 0 := by
    simp [CircularBuffer.valid_length, CircularBuffer.is_full, CircularBuffer.is_empty,
      CircularBuffer.new]
  have hc0 : (CircularBuffer.new cap).contents = [] :=
    List.eq_nil_of_length_eq_zero (by simp [CircularBuffer.contents, hvl0])
  obtain ⟨outs, b', hrun, hwf', hsz', hcat⟩ :=
    runOps_spec ops (CircularBuffer.new cap) hwf (by rw [hvl0]; exact hok)
  rw [hc0, List.nil_append] at hcat
  refine ⟨outs, b', hrun, hcat, ?_⟩
  intro hempty
  have hnil : b'.contents = [] :=
    List.eq_nil_of_length_eq_zero (by simp [CircularBuffer.contents, hempty])
  rw [hnil, List.append_nil] at hcat
  exact hcat

/-- Witness for C1 at a concrete wraparound run on a 4-byte ring: append 3
bytes, read 2, append 3 more (which wraps), read 4 across the seam. -/
theorem claim_C1_ring_fifo_witness :
    ∃ outs b', runOps (CircularBuffer.new 4)
        [.append [1, 2, 3], .read 2, .append [4, 5, 6], .read 4]
        = some (outs, b') ∧
      outs ++ b'.contents
        = appendedBytes [.append [1, 2, 3], .read 2, .append [4, 5, 6], .read 4] ∧
      (b'.valid_length = 0 →
        outs = appendedBytes [.append [1, 2, 3], .read 2, .append [4, 5, 6], .read 4]) :=
  claim_C1_ring_fifo 4 [.append [1, 2, 3], .read 2, .append [4, 5, 6], .read 4]
    (by decide) (by decide)

end Raiot
